import Mathlib

/-!
Shallow embedding of the buffer-geometry core of this repository
(`src/src/core/BufferGeometry.js` and the box-shape builder in
`src/unnamed/part_000`) over exact rational arithmetic.

Conventions of the embedding:
* JavaScript numbers are modelled by `ℚ`.  Floating-point artefacts
  (NaN, rounding) are outside the model; each claim is settled on the
  exact-arithmetic reading of the algorithms.
* Typed arrays are modelled by `List ℚ`.  An out-of-range indexed read
  yields the default `0` (`List.getD`) and an out-of-range indexed write
  is a no-op (`List.set`), matching the silent out-of-range behaviour of
  JavaScript typed arrays.
* The math primitives (`Vector3`, `Box3`, `Sphere`, `Matrix4`,
  `Matrix3`) live in `src/math/*` of the repository, which is not part
  of the provided sources; they are modelled from the spec's
  math-collaborator contract (vector arithmetic, box fitting/expansion,
  matrix application) and follow the upstream library's documented
  behaviour.  Each such definition carries a `Modelled from the spec`
  note.
* A sphere stores the square of its radius (`radius2`): the source
  stores `radius = √maxRadiusSq`, and over `ℚ` the square is the exact
  carrier of the same information (√ is strictly monotone on `[0, ∞)`).
-/

/-- Three-component vector of exact rationals (models the math
collaborator's `Vector3`). -/
structure Vec3 where
  x : ℚ
  y : ℚ
  z : ℚ
deriving DecidableEq

/-- Modelled from the spec: componentwise vector addition (`Vector3.add` /
`addVectors`). -/
def vadd (a b : Vec3) : Vec3 := ⟨a.x + b.x, a.y + b.y, a.z + b.z⟩

/-- Modelled from the spec: componentwise vector subtraction (`Vector3.sub`). -/
def vsub (a b : Vec3) : Vec3 := ⟨a.x - b.x, a.y - b.y, a.z - b.z⟩

/-- Modelled from the spec: scalar multiplication (`Vector3.multiplyScalar`). -/
def vsmul (s : ℚ) (a : Vec3) : Vec3 := ⟨s * a.x, s * a.y, s * a.z⟩

/-- Modelled from the spec: dot product (`Vector3.dot`). -/
def vdot (a b : Vec3) : ℚ := a.x * b.x + a.y * b.y + a.z * b.z

/-- Modelled from the spec: cross product (`Vector3.cross` / `crossVectors`). -/
def vcross (a b : Vec3) : Vec3 :=
  ⟨a.y * b.z - a.z * b.y, a.z * b.x - a.x * b.z, a.x * b.y - a.y * b.x⟩

/-- Modelled from the spec: squared distance between two points
(`Vector3.distanceToSquared`). -/
def distanceToSquared (a b : Vec3) : ℚ :=
  (a.x - b.x) ^ 2 + (a.y - b.y) ^ 2 + (a.z - b.z) ^ 2

/-- Componentwise minimum of two vectors (`Vector3.min`). -/
def vminc (a b : Vec3) : Vec3 := ⟨min a.x b.x, min a.y b.y, min a.z b.z⟩

/-- Componentwise maximum of two vectors (`Vector3.max`). -/
def vmaxc (a b : Vec3) : Vec3 := ⟨max a.x b.x, max a.y b.y, max a.z b.z⟩

/-- Componentwise order on vectors: the bounding-box containment order. -/
def vle (a b : Vec3) : Prop := a.x ≤ b.x ∧ a.y ≤ b.y ∧ a.z ≤ b.z

instance (a b : Vec3) : Decidable (vle a b) :=
  inferInstanceAs (Decidable (a.x ≤ b.x ∧ a.y ≤ b.y ∧ a.z ≤ b.z))

/-- Modelled from the spec: the scalar square root used by the external
math library's vector `normalize`.  Over `ℚ` an exact square root does
not exist; the model uses a deterministic rational approximation (exact
on perfect squares of naturals), which suffices for every claim below:
no claim depends on the numeric value of a normalized vector, only on
the normalization being a deterministic function of its input. -/
def ratSqrt (q : ℚ) : ℚ := (Nat.sqrt (q.num.toNat * q.den) : ℚ) / (q.den : ℚ)

/-- Modelled from the spec: `Vector3.normalize`, which divides by the
length when it is nonzero and leaves the zero vector unchanged
(the library divides by `length or 1`). -/
def vnormalize (v : Vec3) : Vec3 :=
  let l := ratSqrt (vdot v v)
  if l = 0 then v else vsmul (1 / l) v

/-- Attribute buffer: flat numeric backing array, item width and the
normalization flag (`BufferAttribute`).  The index buffer is modelled
separately as a `List ℕ` since it holds integer vertex references. -/
structure BufferAttribute where
  array : List ℚ
  itemSize : ℕ
  normalized : Bool
deriving DecidableEq

/-- Vertex count of an attribute: array length divided by item width
(`BufferAttribute.count`). -/
def vcount (a : BufferAttribute) : ℕ := a.array.length / a.itemSize

/-- Read one component of the backing array (out-of-range reads default
to zero, see the embedding conventions). -/
def getComp (a : BufferAttribute) (i : ℕ) : ℚ := a.array.getD i 0

/-- Modelled from the spec: `Vector3.fromBufferAttribute`, reading the
three components of vertex `i` at offsets `i*itemSize + 0,1,2`. -/
def getVec3 (a : BufferAttribute) (i : ℕ) : Vec3 :=
  ⟨getComp a (i * a.itemSize), getComp a (i * a.itemSize + 1),
    getComp a (i * a.itemSize + 2)⟩

/-- Modelled from the spec: `Vector2.fromBufferAttribute`, reading two
components of vertex `i`. -/
def getVec2 (a : BufferAttribute) (i : ℕ) : ℚ × ℚ :=
  (getComp a (i * a.itemSize), getComp a (i * a.itemSize + 1))

/-- Write the three components of vertex `i` (`BufferAttribute.setXYZ`);
writes are sequential `List.set`s at offsets `i*itemSize + 0,1,2`. -/
def setXYZ (a : BufferAttribute) (i : ℕ) (x y z : ℚ) : BufferAttribute :=
  { a with array :=
      (((a.array.set (i * a.itemSize) x).set (i * a.itemSize + 1) y).set
        (i * a.itemSize + 2) z) }

/-- Write four components of vertex `i` (`BufferAttribute.setXYZW`). -/
def setXYZW (a : BufferAttribute) (i : ℕ) (x y z w : ℚ) : BufferAttribute :=
  { a with array :=
      ((((a.array.set (i * a.itemSize) x).set (i * a.itemSize + 1) y).set
        (i * a.itemSize + 2) z).set (i * a.itemSize + 3) w) }

/-- The vertex list of an attribute, as read by the box-fitting and
bounding-sphere loops (`for i in 0..count, fromBufferAttribute`). -/
def attrPoints (a : BufferAttribute) : List Vec3 :=
  (List.range (vcount a)).map (getVec3 a)

/-- Axis-aligned box of the math collaborator (`Box3`): a `min` and a
`max` corner. -/
structure Box3 where
  min : Vec3
  max : Vec3
deriving DecidableEq

/-- Modelled from the spec: `Box3.expandByPoint` takes componentwise
min/max with the given point. -/
def expandByPoint (b : Box3) (p : Vec3) : Box3 :=
  ⟨vminc b.min p, vmaxc b.max p⟩

/-- Modelled from the spec: the "empty" (degenerate, non-intersecting)
box produced by `Box3.makeEmpty`.  The library's infinite sentinels are
not representable over `ℚ`; the model uses an inverted unit box, which
no claim below depends on (every claim about box contents assumes at
least one point was fitted). -/
def emptyBox : Box3 := ⟨⟨1, 1, 1⟩, ⟨-1, -1, -1⟩⟩

/-- Modelled from the spec: `Box3.setFromBufferAttribute` fits a box to
a vertex list — it empties the box and then expands by every vertex in
order, so for a nonempty list the result is the fold of
`expandByPoint` from the first vertex's degenerate box. -/
def setFromPoints (ps : List Vec3) : Box3 :=
  match ps with
  | [] => emptyBox
  | p :: rest => rest.foldl expandByPoint ⟨p, p⟩

/-- Fit a box to an attribute's vertices (`Box3.setFromBufferAttribute`). -/
def setFromBufferAttribute (a : BufferAttribute) : Box3 :=
  setFromPoints (attrPoints a)

/-- Modelled from the spec: `Box3.getCenter` returns the midpoint of the
two corners. -/
def boxGetCenter (b : Box3) : Vec3 := vsmul (1 / 2) (vadd b.min b.max)

/-- Bounding sphere of the math collaborator (`Sphere`), storing the
square of its radius: the source sets `radius = √maxRadiusSq`, and the
square is the exact carrier of the same information over `ℚ`.  The
never-computed default sphere of the library has radius `-1`; it is
modelled by `radius2 = -1`. -/
structure Sphere where
  center : Vec3
  radius2 : ℚ
deriving DecidableEq

/-- Default sphere produced by the library's `new Sphere()`. -/
def defaultSphere : Sphere := ⟨⟨0, 0, 0⟩, -1⟩

/-- Draw group: a (start, count, materialIndex) range (`addGroup`). -/
structure DrawGroup where
  start : ℕ
  count : ℕ
  materialIndex : ℕ
deriving DecidableEq

/-- Draw range; its `count` may be the unbounded "draw everything"
sentinel (`Infinity`), modelled by `⊤`. -/
structure DrawRange where
  start : ℕ
  count : WithTop ℕ
deriving DecidableEq

/-- The geometry aggregate (`BufferGeometry`): optional index buffer,
named attribute slots (an ordered association list, as JavaScript
objects preserve insertion order), morph-target attribute lists, the
morph-relativity flag, draw groups, draw range and the two lazily
computed bounding volumes.  Identity fields (`id`, `uuid`, `name`,
`userData`) play no part in any claim and are omitted. -/
structure BufferGeometry where
  index : Option (List ℕ)
  attributes : List (String × BufferAttribute)
  morphAttributes : List (String × List BufferAttribute)
  morphTargetsRelative : Bool
  groups : List DrawGroup
  boundingBox : Option Box3
  boundingSphere : Option Sphere
  drawRange : DrawRange
deriving DecidableEq

/-- A freshly constructed geometry (the `BufferGeometry` constructor
defaults). -/
def emptyGeometry : BufferGeometry :=
  { index := none
    attributes := []
    morphAttributes := []
    morphTargetsRelative := false
    groups := []
    boundingBox := none
    boundingSphere := none
    drawRange := ⟨0, ⊤⟩ }

/-- Install an attribute under a name (`setAttribute`): replace in place
when the key exists, append otherwise — JavaScript object-assignment
semantics. -/
def attrSet (l : List (String × BufferAttribute)) (name : String)
    (a : BufferAttribute) : List (String × BufferAttribute) :=
  if l.any (fun p => p.1 = name) then
    l.map (fun p => if p.1 = name then (name, a) else p)
  else l ++ [(name, a)]

/-- Geometry-level `setAttribute`. -/
def setAttribute (g : BufferGeometry) (name : String) (a : BufferAttribute) :
    BufferGeometry :=
  { g with attributes := attrSet g.attributes name a }

/-- Geometry-level `getAttribute`. -/
def getAttribute (g : BufferGeometry) (name : String) : Option BufferAttribute :=
  List.lookup name g.attributes

/-- Overwrite the draw range record (`setDrawRange`). -/
def setDrawRange (g : BufferGeometry) (start : ℕ) (count : WithTop ℕ) :
    BufferGeometry :=
  { g with drawRange := ⟨start, count⟩ }

/-- Append a draw group (`addGroup`). -/
def addGroup (g : BufferGeometry) (start count materialIndex : ℕ) :
    BufferGeometry :=
  { g with groups := g.groups ++ [⟨start, count, materialIndex⟩] }

/-- One morph-target expansion step of the bounding box
(`computeBoundingBox` lines 417-434, and identically
`computeBoundingSphere` lines 492-510): fit a box to the morph
attribute; in relative mode expand by (current min + morph min) and
then by (current max + morph max) — the second corner uses the box as
already updated by the first expansion, as in the source; in absolute
mode expand by the morph box's own corners. -/
def morphExpand (relative : Bool) (b : Box3) (m : BufferAttribute) : Box3 :=
  let mb := setFromBufferAttribute m
  if relative then
    let b1 := expandByPoint b (vadd b.min mb.min)
    expandByPoint b1 (vadd b1.max mb.max)
  else
    expandByPoint (expandByPoint b mb.min) mb.max

/-- The morph-expanded bounding box: fit the base position attribute,
then fold the morph-target expansion over every morph position buffer.
This is the box both `computeBoundingBox` and `computeBoundingSphere`
compute (the source duplicates the loop verbatim in both methods). -/
def expandedBox (pos : BufferAttribute) (morphs : List BufferAttribute)
    (relative : Bool) : Box3 :=
  morphs.foldl (morphExpand relative) (setFromBufferAttribute pos)

/-- Morph position buffers of a geometry (`this.morphAttributes.position`,
absent lists behaving as no morph targets). -/
def morphPositions (g : BufferGeometry) : List BufferAttribute :=
  (List.lookup "position" g.morphAttributes).getD []

/-- Embeds `BufferGeometry.computeBoundingBox` (source lines 385-452):
create the box if absent and fit it to the position vertices with
morph-target expansion; with no position attribute the box is reset to
the empty state.  The device-resident (`GLBufferAttribute`) early-out
is outside the model (the model's attributes are always readable), and
the final NaN check only reports and does not change state. -/
def computeBoundingBox (g : BufferGeometry) : BufferGeometry :=
  match List.lookup "position" g.attributes with
  | some pos =>
      { g with boundingBox :=
          (some (expandedBox pos (morphPositions g) g.morphTargetsRelative)) }
  | none => { g with boundingBox := some emptyBox }

/-- A morph-expanded vertex as read by the bounding-sphere second pass
(source lines 531-545): the morph vertex, offset by the corresponding
base vertex when morph targets are relative. -/
def morphPoint (pos : BufferAttribute) (relative : Bool)
    (m : BufferAttribute) (j : ℕ) : Vec3 :=
  if relative then vadd (getVec3 m j) (getVec3 pos j) else getVec3 m j

/-- Embeds `BufferGeometry.computeBoundingSphere` (source lines 460-560):
create the sphere if absent; with a position attribute, fit the
morph-expanded box (identical policy to `computeBoundingBox`), take its
center as the sphere center, then take the maximum squared distance
from that center over every vertex and every morph-expanded vertex,
starting from `0`.  The source stores `radius = √maxRadiusSq`; the
model's sphere stores the square itself.  With no position attribute
the (possibly just created) sphere is left as is. -/
def computeBoundingSphere (g : BufferGeometry) : BufferGeometry :=
  let s0 := g.boundingSphere.getD defaultSphere
  match List.lookup "position" g.attributes with
  | none => { g with boundingSphere := some s0 }
  | some pos =>
      let morphs := morphPositions g
      let center := boxGetCenter (expandedBox pos morphs g.morphTargetsRelative)
      let r1 := (attrPoints pos).foldl
        (fun acc p => max acc (distanceToSquared center p)) 0
      let r2 := morphs.foldl
        (fun acc m => (List.range (vcount m)).foldl
          (fun acc2 j =>
            max acc2 (distanceToSquared center
              (morphPoint pos g.morphTargetsRelative m j))) acc) r1
      { g with boundingSphere := some ⟨center, r2⟩ }

/-- Reset every entry of an existing normal attribute to zero
(`computeVertexNormals` lines 731-735: `setXYZ(i, 0, 0, 0)` for every
`i < count`). -/
def zeroEntries (n : BufferAttribute) : BufferAttribute :=
  (List.range (vcount n)).foldl (fun acc i => setXYZ acc i 0 0 0) n

/-- The triangles visited by the indexed loops (`for i = 0; i < index.count;
i += 3`, reading `index.getX` at `i, i+1, i+2`). -/
def indexTriples (idx : List ℕ) : List (ℕ × ℕ × ℕ) :=
  (List.range ((idx.length + 2) / 3)).map
    (fun t => (idx.getD (3 * t) 0, idx.getD (3 * t + 1) 0, idx.getD (3 * t + 2) 0))

/-- One triangle of the indexed normal accumulation (source lines
749-777): face normal `cb = (pC - pB) × (pA - pB)`; the three current
vertex normals are read first, then the three sums are written back in
order. -/
def accumulateFaceNormal (pos : BufferAttribute) (n : BufferAttribute)
    (t : ℕ × ℕ × ℕ) : BufferAttribute :=
  let pA := getVec3 pos t.1
  let pB := getVec3 pos t.2.1
  let pC := getVec3 pos t.2.2
  let cb := vcross (vsub pC pB) (vsub pA pB)
  let nA := vadd (getVec3 n t.1) cb
  let nB := vadd (getVec3 n t.2.1) cb
  let nC := vadd (getVec3 n t.2.2) cb
  let n1 := setXYZ n t.1 nA.x nA.y nA.z
  let n2 := setXYZ n1 t.2.1 nB.x nB.y nB.z
  setXYZ n2 t.2.2 nC.x nC.y nC.z

/-- The non-indexed branch of `computeVertexNormals` (source lines
780-794): every consecutive vertex triple is an independent triangle and
all three corners receive the same face normal. -/
def flatFaceNormals (pos : BufferAttribute) (n : BufferAttribute) :
    BufferAttribute :=
  (List.range ((vcount pos + 2) / 3)).foldl (fun acc t =>
    let i := 3 * t
    let pA := getVec3 pos i
    let pB := getVec3 pos (i + 1)
    let pC := getVec3 pos (i + 2)
    let cb := vcross (vsub pC pB) (vsub pA pB)
    let a1 := setXYZ acc i cb.x cb.y cb.z
    let a2 := setXYZ a1 (i + 1) cb.x cb.y cb.z
    setXYZ a2 (i + 2) cb.x cb.y cb.z) n

/-- Embeds `BufferGeometry.normalizeNormals` (source lines 809-819):
normalize every entry of the normal attribute in place. -/
def normalizeNormals (n : BufferAttribute) : BufferAttribute :=
  (List.range (vcount n)).foldl (fun acc i =>
    let v := vnormalize (getVec3 acc i)
    setXYZ acc i v.x v.y v.z) n

/-- Embeds `BufferGeometry.computeVertexNormals` (source lines 716-803):
requires a position attribute (otherwise a complete no-op); creates a
3-component zero normal attribute sized to the position count if absent,
or zeroes every existing entry first; accumulates face normals per
triangle (indexed: summed into shared vertices; non-indexed: assigned
flat), then normalizes every normal. -/
def computeVertexNormals (g : BufferGeometry) : BufferGeometry :=
  match List.lookup "position" g.attributes with
  | none => g
  | some posA =>
      let normal0 : BufferAttribute :=
        match List.lookup "normal" g.attributes with
        | none => ⟨List.replicate (vcount posA * 3) 0, 3, false⟩
        | some n => zeroEntries n
      let normal1 :=
        match g.index with
        | some idx => (indexTriples idx).foldl (accumulateFaceNormal posA) normal0
        | none => flatFaceNormals posA normal0
      { g with attributes := attrSet g.attributes "normal" (normalizeNormals normal1) }

/-- The UV-delta determinant whose inverse is the tangent scale factor
`r` (source line 629): `uvB.x * uvC.y - uvC.x * uvB.y` after both UV
deltas are taken relative to corner `a`.  In the source `r = 1/denom` is
rejected by `isFinite(r)`; over exact rationals `r` is non-finite
exactly when this denominator is zero. -/
def tangentDenom (uv : BufferAttribute) (a b c : ℕ) : ℚ :=
  let uvA := getVec2 uv a
  let uvB := getVec2 uv b
  let uvC := getVec2 uv c
  (uvB.1 - uvA.1) * (uvC.2 - uvA.2) - (uvC.1 - uvA.1) * (uvB.2 - uvA.2)

/-- In-place accumulation `tan[i].add(v)` on the temporary tangent
lists (out-of-range accumulations, which throw in the host language,
are no-ops of the model and are outside every claim). -/
def addAt (l : List Vec3) (i : ℕ) (v : Vec3) : List Vec3 :=
  l.set i (vadd (l.getD i ⟨0, 0, 0⟩) v)

/-- Embeds `handleTriangle` of `computeTangents` (source lines 611-655):
edge and UV-delta vectors relative to corner `a`; when the scale factor
is non-finite (zero UV determinant) the triangle contributes nothing;
otherwise tangent and bitangent directions scaled by `r` are summed
into the three corners' running totals. -/
def handleTriangle (pos uv : BufferAttribute) (st : List Vec3 × List Vec3)
    (a b c : ℕ) : List Vec3 × List Vec3 :=
  let vA := getVec3 pos a
  let vB := vsub (getVec3 pos b) vA
  let vC := vsub (getVec3 pos c) vA
  let uvA := getVec2 uv a
  let uvBx := (getVec2 uv b).1 - uvA.1
  let uvBy := (getVec2 uv b).2 - uvA.2
  let uvCx := (getVec2 uv c).1 - uvA.1
  let uvCy := (getVec2 uv c).2 - uvA.2
  if tangentDenom uv a b c = 0 then st
  else
    let r := 1 / tangentDenom uv a b c
    let sdir := vsmul r (vadd (vsmul uvCy vB) (vsmul (-uvBy) vC))
    let tdir := vsmul r (vadd (vsmul uvBx vC) (vsmul (-uvCx) vB))
    (addAt (addAt (addAt st.1 a sdir) b sdir) c sdir,
      addAt (addAt (addAt st.2 a tdir) b tdir) c tdir)

/-- The triangles visited by the two tangent passes: the draw groups
when present, else a single group covering the whole index (source
lines 657-674); each group is scanned with
`for j = start; j < start + count; j += 3`. -/
def groupTriples (idx : List ℕ) (groups : List DrawGroup) :
    List (ℕ × ℕ × ℕ) :=
  let gs := if groups = [] then [⟨0, idx.length, 0⟩] else groups
  gs.flatMap (fun gr => (List.range ((gr.count + 2) / 3)).map (fun t =>
    (idx.getD (gr.start + 3 * t) 0, idx.getD (gr.start + 3 * t + 1) 0,
      idx.getD (gr.start + 3 * t + 2) 0)))

/-- Embeds `handleVertex` of `computeTangents` (source lines 677-694):
Gram-Schmidt orthogonalization of the accumulated tangent against the
vertex normal, handedness from the sign of `(n × t) · tan2[v]`, and the
4-component write. -/
def handleVertex (normal : BufferAttribute) (tans : List Vec3 × List Vec3)
    (tangent : BufferAttribute) (v : ℕ) : BufferAttribute :=
  let n := getVec3 normal v
  let t := tans.1.getD v ⟨0, 0, 0⟩
  let tmp := vnormalize (vsub t (vsmul (vdot n t) n))
  let test := vdot (vcross n t) (tans.2.getD v ⟨0, 0, 0⟩)
  let w : ℚ := if test < 0 then -1 else 1
  setXYZW tangent v tmp.x tmp.y tmp.z w

/-- Embeds `BufferGeometry.computeTangents` (source lines 568-708).
Returns the geometry together with the error-reported flag: with any of
index, position, normal or uv missing the method reports and returns
with no effect.  Otherwise it ensures a 4-component tangent attribute
sized to the vertex count, accumulates per-triangle tangent/bitangent
totals, and writes the orthogonalized tangent plus handedness for the
three corners of every visited triangle. -/
def computeTangents (g : BufferGeometry) : BufferGeometry × Bool :=
  match g.index, List.lookup "position" g.attributes,
    List.lookup "normal" g.attributes, List.lookup "uv" g.attributes with
  | some idx, some posA, some normA, some uvA =>
      let g1 := if (List.lookup "tangent" g.attributes).isSome then g
        else setAttribute g "tangent" ⟨List.replicate (4 * vcount posA) 0, 4, false⟩
      let tangentA := (List.lookup "tangent" g1.attributes).getD ⟨[], 4, false⟩
      let z3 : Vec3 := ⟨0, 0, 0⟩
      let tan0 := (List.replicate (vcount posA) z3, List.replicate (vcount posA) z3)
      let tris := groupTriples idx g.groups
      let tans := tris.foldl
        (fun st t => handleTriangle posA uvA st t.1 t.2.1 t.2.2) tan0
      let tangent2 := tris.foldl (fun ta t =>
        handleVertex normA tans
          (handleVertex normA tans (handleVertex normA tans ta t.1) t.2.1)
          t.2.2) tangentA
      ({ g1 with attributes := attrSet g1.attributes "tangent" tangent2 }, false)
  | _, _, _, _ => (g, true)

/-- The attribute-expansion helper of `toNonIndexed`
(`convertBufferAttribute`, source lines 828-856): materialize the index
indirection into a new backing array of `indices.length` vertices, the
`i`-th expanded vertex copying the `itemSize` components of source
vertex `indices[i]`; item size and normalized flag are carried over.
The interleaved-attribute branch is outside the model (the model's
attributes are plain). -/
def convertBufferAttribute (a : BufferAttribute) (indices : List ℕ) :
    BufferAttribute :=
  ⟨indices.flatMap (fun ix =>
      (List.range a.itemSize).map (fun j => a.array.getD (ix * a.itemSize + j) 0)),
    a.itemSize, a.normalized⟩

/-- Embeds `BufferGeometry.toNonIndexed` (source lines 826-909), paired
with the warning flag: with no index the method warns and returns the
same instance; otherwise it builds a fresh geometry whose attributes and
morph attributes are all expanded through the index, copies the
morph-relativity flag and the draw groups verbatim, and carries no
index. -/
def toNonIndexed (g : BufferGeometry) : BufferGeometry × Bool :=
  match g.index with
  | none => (g, true)
  | some indices =>
      let g2 := { emptyGeometry with
        attributes :=
          (g.attributes.map (fun p => (p.1, convertBufferAttribute p.2 indices))),
        morphAttributes :=
          (g.morphAttributes.map (fun p =>
            (p.1, p.2.map (fun a => convertBufferAttribute a indices)))),
        morphTargetsRelative := g.morphTargetsRelative,
        groups := g.groups }
      (g2, false)

/-- Modelled from the spec: the math collaborator's 4x4 matrix, written
with row-column entries (`n11` is row 1, column 1). -/
structure Mat4 where
  n11 : ℚ
  n12 : ℚ
  n13 : ℚ
  n14 : ℚ
  n21 : ℚ
  n22 : ℚ
  n23 : ℚ
  n24 : ℚ
  n31 : ℚ
  n32 : ℚ
  n33 : ℚ
  n34 : ℚ
  n41 : ℚ
  n42 : ℚ
  n43 : ℚ
  n44 : ℚ
deriving DecidableEq

/-- Modelled from the spec: 3x3 matrix of the math collaborator. -/
structure Mat3 where
  m11 : ℚ
  m12 : ℚ
  m13 : ℚ
  m21 : ℚ
  m22 : ℚ
  m23 : ℚ
  m31 : ℚ
  m32 : ℚ
  m33 : ℚ
deriving DecidableEq

/-- The identity transform. -/
def idMat4 : Mat4 := ⟨1, 0, 0, 0, 0, 1, 0, 0, 0, 0, 1, 0, 0, 0, 0, 1⟩

/-- Modelled from the spec: `Vector3.applyMatrix4` — full affine (and
projective) application with the perspective divide.  The library's
division by a zero denominator produces non-finite components; over `ℚ`
the model's `1 / 0 = 0` stands in, which no claim exercises (affine
transforms have denominator 1). -/
def applyMatrix4V (m : Mat4) (v : Vec3) : Vec3 :=
  let invW := 1 / (m.n41 * v.x + m.n42 * v.y + m.n43 * v.z + m.n44)
  ⟨(m.n11 * v.x + m.n12 * v.y + m.n13 * v.z + m.n14) * invW,
    (m.n21 * v.x + m.n22 * v.y + m.n23 * v.z + m.n24) * invW,
    (m.n31 * v.x + m.n32 * v.y + m.n33 * v.z + m.n34) * invW⟩

/-- Modelled from the spec: `Matrix3.getNormalMatrix` — the
inverse-transpose of the upper-left 3x3 block, i.e. the cofactor matrix
divided by the determinant; a singular block yields the zero matrix, as
in the library's `invert`. -/
def getNormalMatrix (m : Mat4) : Mat3 :=
  let c11 := m.n22 * m.n33 - m.n23 * m.n32
  let c12 := -(m.n21 * m.n33 - m.n23 * m.n31)
  let c13 := m.n21 * m.n32 - m.n22 * m.n31
  let c21 := -(m.n12 * m.n33 - m.n13 * m.n32)
  let c22 := m.n11 * m.n33 - m.n13 * m.n31
  let c23 := -(m.n11 * m.n32 - m.n12 * m.n31)
  let c31 := m.n12 * m.n23 - m.n13 * m.n22
  let c32 := -(m.n11 * m.n23 - m.n13 * m.n21)
  let c33 := m.n11 * m.n22 - m.n12 * m.n21
  let det := m.n11 * c11 + m.n12 * c12 + m.n13 * c13
  if det = 0 then ⟨0, 0, 0, 0, 0, 0, 0, 0, 0⟩
  else
    let r := 1 / det
    ⟨r * c11, r * c12, r * c13, r * c21, r * c22, r * c23, r * c31, r * c32, r * c33⟩

/-- Modelled from the spec: `Vector3.applyNormalMatrix` — apply the 3x3
normal matrix and normalize. -/
def applyNormalMatrixV (nm : Mat3) (v : Vec3) : Vec3 :=
  vnormalize
    ⟨nm.m11 * v.x + nm.m12 * v.y + nm.m13 * v.z,
      nm.m21 * v.x + nm.m22 * v.y + nm.m23 * v.z,
      nm.m31 * v.x + nm.m32 * v.y + nm.m33 * v.z⟩

/-- Modelled from the spec: `Vector3.transformDirection` — apply only
the rotational part (upper-left 3x3, no translation) and normalize. -/
def transformDirectionV (m : Mat4) (v : Vec3) : Vec3 :=
  vnormalize
    ⟨m.n11 * v.x + m.n12 * v.y + m.n13 * v.z,
      m.n21 * v.x + m.n22 * v.y + m.n23 * v.z,
      m.n31 * v.x + m.n32 * v.y + m.n33 * v.z⟩

/-- The per-vertex in-place transform loop of the attribute-level
helpers (`BufferAttribute.applyMatrix4`, `applyNormalMatrix`,
`transformDirection`): for every vertex below the (fixed) count, read
it, transform it and write it back. -/
def mapXYZ (f : Vec3 → Vec3) (a : BufferAttribute) : BufferAttribute :=
  (List.range (vcount a)).foldl (fun acc i =>
    let v := f (getVec3 acc i)
    setXYZ acc i v.x v.y v.z) a

/-- The attribute-transforming half of `BufferGeometry.applyMatrix4`
(source lines 208-229): position gets the full affine transform, normal
the normal-matrix application, tangent the direction-only transform —
each only when present. -/
def transformAttributes (m : Mat4) (g : BufferGeometry) : BufferGeometry :=
  let g1 := match List.lookup "position" g.attributes with
    | some p =>
        { g with attributes :=
            attrSet g.attributes "position" (mapXYZ (applyMatrix4V m) p) }
    | none => g
  let g2 := match List.lookup "normal" g1.attributes with
    | some n =>
        { g1 with attributes :=
            (attrSet g1.attributes "normal"
              (mapXYZ (applyNormalMatrixV (getNormalMatrix m)) n)) }
    | none => g1
  match List.lookup "tangent" g2.attributes with
  | some t =>
      { g2 with attributes :=
          attrSet g2.attributes "tangent" (mapXYZ (transformDirectionV m) t) }
  | none => g2

/-- Embeds `BufferGeometry.applyMatrix4` (source lines 208-241):
transform the position/normal/tangent attributes, then recompute the
bounding box when one had been computed, and recompute the bounding
sphere when one had been computed. -/
def applyMatrix4 (m : Mat4) (g : BufferGeometry) : BufferGeometry :=
  let g3 := transformAttributes m g
  let g4 := if g3.boundingBox.isSome then computeBoundingBox g3 else g3
  if g4.boundingSphere.isSome then computeBoundingSphere g4 else g4

/-- Axis name for the component-by-name write `vector[axis] = value`
used by `buildPlane` of the box builder. -/
inductive Axis where
  | x
  | y
  | z
deriving DecidableEq

/-- Component-by-name write on a vector. -/
def setAxis (v : Vec3) (ax : Axis) (q : ℚ) : Vec3 :=
  match ax with
  | Axis.x => { v with x := q }
  | Axis.y => { v with y := q }
  | Axis.z => { v with z := q }

/-- The mutable buffers and counters threaded through the six
`buildPlane` calls of the `BoxGeometry` constructor
(`indices/vertices/normals/uvs`, the group list on the geometry, and
the captured `numberOfVertices`/`groupStart` counters). -/
structure BuildState where
  indices : List ℕ
  vertices : List ℚ
  normals : List ℚ
  uvs : List ℚ
  groups : List DrawGroup
  numberOfVertices : ℕ
  groupStart : ℕ
deriving DecidableEq

/-- Embeds `buildPlane` of the `BoxGeometry` constructor
(`src/unnamed/part_000` lines 157-249): emit the `(gridX+1)*(gridY+1)`
vertices with their normals and UVs, emit the two triangles (six index
entries) per grid cell, append one draw group covering the emitted
index range, and advance the vertex and group counters. -/
def buildPlane (st : BuildState) (u v w : Axis) (udir vdir : ℚ)
    (width height depth : ℚ) (gridX gridY : ℕ) (materialIndex : ℕ) :
    BuildState :=
  let segmentWidth := width / (gridX : ℚ)
  let segmentHeight := height / (gridY : ℚ)
  let widthHalf := width / 2
  let heightHalf := height / 2
  let depthHalf := depth / 2
  let gridX1 := gridX + 1
  let gridY1 := gridY + 1
  let verts := (List.range gridY1).flatMap (fun iy =>
    (List.range gridX1).flatMap (fun ix =>
      let y := (iy : ℚ) * segmentHeight - heightHalf
      let x := (ix : ℚ) * segmentWidth - widthHalf
      let vec := setAxis (setAxis (setAxis ⟨0, 0, 0⟩ u (x * udir)) v (y * vdir))
        w depthHalf
      [vec.x, vec.y, vec.z]))
  let norms := (List.range gridY1).flatMap (fun _ =>
    (List.range gridX1).flatMap (fun _ =>
      let vec := setAxis (setAxis (setAxis ⟨0, 0, 0⟩ u 0) v 0) w
        (if depth > 0 then 1 else -1)
      [vec.x, vec.y, vec.z]))
  let uvl := (List.range gridY1).flatMap (fun iy =>
    (List.range gridX1).flatMap (fun ix =>
      [(ix : ℚ) / (gridX : ℚ), 1 - (iy : ℚ) / (gridY : ℚ)]))
  let idx := (List.range gridY).flatMap (fun iy =>
    (List.range gridX).flatMap (fun ix =>
      let a := st.numberOfVertices + ix + gridX1 * iy
      let b := st.numberOfVertices + ix + gridX1 * (iy + 1)
      let c := st.numberOfVertices + (ix + 1) + gridX1 * (iy + 1)
      let d := st.numberOfVertices + (ix + 1) + gridX1 * iy
      [a, b, d, b, c, d]))
  { indices := st.indices ++ idx
    vertices := st.vertices ++ verts
    normals := st.normals ++ norms
    uvs := st.uvs ++ uvl
    groups := st.groups ++ [⟨st.groupStart, 6 * gridX * gridY, materialIndex⟩]
    numberOfVertices := st.numberOfVertices + gridX1 * gridY1
    groupStart := st.groupStart + 6 * gridX * gridY }

/-- Embeds the `BoxGeometry` constructor (`src/unnamed/part_000` lines
18-250): six `buildPlane` calls in face order +x, -x, +y, -y, +z, -z
with material indices 0 to 5, then the accumulated buffers are
installed via `setIndex`/`setAttribute` (positions and normals with
item size 3, UVs with item size 2). -/
def boxGeometry (width height depth : ℚ)
    (widthSegments heightSegments depthSegments : ℕ) : BufferGeometry :=
  let st0 : BuildState := ⟨[], [], [], [], [], 0, 0⟩
  let st1 := buildPlane st0 Axis.z Axis.y Axis.x (-1) (-1) depth height width
    depthSegments heightSegments 0
  let st2 := buildPlane st1 Axis.z Axis.y Axis.x 1 (-1) depth height (-width)
    depthSegments heightSegments 1
  let st3 := buildPlane st2 Axis.x Axis.z Axis.y 1 1 width depth height
    widthSegments depthSegments 2
  let st4 := buildPlane st3 Axis.x Axis.z Axis.y 1 (-1) width depth (-height)
    widthSegments depthSegments 3
  let st5 := buildPlane st4 Axis.x Axis.y Axis.z 1 (-1) width height depth
    widthSegments heightSegments 4
  let st6 := buildPlane st5 Axis.x Axis.y Axis.z (-1) (-1) width height (-depth)
    widthSegments heightSegments 5
  let g : BufferGeometry :=
    { emptyGeometry with index := some st6.indices, groups := st6.groups }
  let g := setAttribute g "position" ⟨st6.vertices, 3, false⟩
  let g := setAttribute g "normal" ⟨st6.normals, 3, false⟩
  setAttribute g "uv" ⟨st6.uvs, 2, false⟩

/-- Vertex count of the named attribute of a geometry (zero when the
attribute is absent). -/
def attrVertexCount (g : BufferGeometry) (name : String) : ℕ :=
  match List.lookup name g.attributes with
  | some a => vcount a
  | none => 0

/-- A geometry whose bounding box has been computed while its bounding
sphere never was — the state reached by calling `computeBoundingBox()`
on a freshly filled geometry. -/
def gBoxOnly : BufferGeometry :=
  computeBoundingBox
    { emptyGeometry with attributes := [("position", ⟨[1, 2, 3], 3, false⟩)] }

/-- A two-vertex geometry with one relative morph-target position
buffer. -/
def gMorphRel : BufferGeometry :=
  { emptyGeometry with
    attributes := [("position", ⟨[0, 0, 0, 2, 1, 0], 3, false⟩)],
    morphAttributes := [("position", [⟨[1, 1, 1, -1, 0, 0], 3, false⟩])],
    morphTargetsRelative := true }

/-- An indexed triangle geometry with position and normal but no uv
attribute. -/
def gNoUV : BufferGeometry :=
  { emptyGeometry with
    index := some [0, 1, 2],
    attributes := [("position", ⟨[0, 0, 0, 1, 0, 0, 0, 1, 0], 3, false⟩),
      ("normal", ⟨[0, 0, 1, 0, 0, 1, 0, 0, 1], 3, false⟩)] }

/-- The spec's expansion example: four unique vertices indexed as
`[0, 1, 2, 2, 1, 3]`. -/
def gIdx7 : BufferGeometry :=
  { emptyGeometry with
    index := some [0, 1, 2, 2, 1, 3],
    attributes :=
      [("position", ⟨[0, 0, 0, 1, 0, 0, 0, 1, 0, 1, 1, 0], 3, false⟩)] }

/-- An indexed triangle with a well-formed pre-existing normal
attribute. -/
def gTri : BufferGeometry :=
  { emptyGeometry with
    index := some [0, 1, 2],
    attributes := [("position", ⟨[0, 0, 0, 0, 1, 0, 0, 0, 1], 3, false⟩),
      ("normal", ⟨[9, 9, 9, 9, 9, 9, 9, 9, 9], 3, false⟩)] }

/-! Helper lemmas about association-list lookup and the expansion
helper, shared by several claims. -/

theorem lookup_map_pair {α β : Type} (l : List (String × α)) (f : α → β)
    (name : String) :
    List.lookup name (l.map (fun p => (p.1, f p.2))) =
      (List.lookup name l).map f := by
  induction l with
  | nil => rfl
  | cons hd tl ih =>
      rcases hd with ⟨k, v⟩
      cases hb : name == k <;> simp [List.lookup, hb, ih]

theorem lookup_mapReplace_self (l : List (String × BufferAttribute))
    (name : String) (a : BufferAttribute)
    (hmem : l.any (fun p => p.1 = name) = true) :
    List.lookup name (l.map (fun p => if p.1 = name then (name, a) else p)) =
      some a := by
  induction l with
  | nil => simp at hmem
  | cons hd tl ih =>
      rcases hd with ⟨k, v⟩
      rw [List.map_cons]
      by_cases hk : k = name
      · rw [if_pos (by simpa using hk)]
        simp [List.lookup]
      · rw [if_neg (by simpa using hk)]
        have hmem2 : tl.any (fun p => p.1 = name) = true := by
          simpa [List.any_cons, hk] using hmem
        have hb : (name == k) = false := by
          simpa using fun h => hk h.symm
        simpa [List.lookup, hb] using ih hmem2

theorem lookup_append_single_self (l : List (String × BufferAttribute))
    (name : String) (a : BufferAttribute)
    (hmem : ¬l.any (fun p => p.1 = name) = true) :
    List.lookup name (l ++ [(name, a)]) = some a := by
  induction l with
  | nil => simp [List.lookup]
  | cons hd tl ih =>
      rcases hd with ⟨k, v⟩
      have hk : ¬k = name := fun h => hmem (by simp [List.any_cons, h])
      have htl : ¬tl.any (fun p => p.1 = name) = true := fun h =>
        hmem (by simp [List.any_cons, h])
      have hb : (name == k) = false := by
        simpa using fun h => hk h.symm
      simpa [List.lookup, hb] using ih htl

theorem lookup_attrSet_self (l : List (String × BufferAttribute))
    (name : String) (a : BufferAttribute) :
    List.lookup name (attrSet l name a) = some a := by
  unfold attrSet
  split
  · exact lookup_mapReplace_self l name a (by assumption)
  · exact lookup_append_single_self l name a (by assumption)

theorem lookup_mapReplace_ne (l : List (String × BufferAttribute))
    (name other : String) (a : BufferAttribute) (h : other ≠ name) :
    List.lookup other (l.map (fun p => if p.1 = name then (name, a) else p)) =
      List.lookup other l := by
  induction l with
  | nil => rfl
  | cons hd tl ih =>
      rcases hd with ⟨k, v⟩
      rw [List.map_cons]
      by_cases hk : k = name
      · rw [if_pos (by simpa using hk)]
        subst hk
        have hb : (other == k) = false := by simpa using h
        simp [List.lookup, hb, ih]
      · rw [if_neg (by simpa using hk)]
        cases hb : other == k <;> simp [List.lookup, hb, ih]

theorem lookup_append_single_ne (l : List (String × BufferAttribute))
    (name other : String) (a : BufferAttribute) (h : other ≠ name) :
    List.lookup other (l ++ [(name, a)]) = List.lookup other l := by
  induction l with
  | nil => simp [List.lookup, (by simpa using h : (other == name) = false)]
  | cons hd tl ih =>
      rcases hd with ⟨k, v⟩
      cases hb : other == k <;> simp [List.lookup, hb, ih]

theorem lookup_attrSet_ne (l : List (String × BufferAttribute))
    (name other : String) (a : BufferAttribute) (h : other ≠ name) :
    List.lookup other (attrSet l name a) = List.lookup other l := by
  unfold attrSet
  split
  · exact lookup_mapReplace_ne l name other a h
  · exact lookup_append_single_ne l name other a h

theorem flatMapConst_length {β : Type} (f : ℕ → ℕ → β) (is : ℕ)
    (indices : List ℕ) :
    (indices.flatMap (fun ix => (List.range is).map (f ix))).length =
      indices.length * is := by
  induction indices with
  | nil => simp
  | cons hd tl ih =>
      simp only [List.flatMap_cons, List.length_append, List.length_map,
        List.length_range, ih, List.length_cons]
      rw [Nat.succ_mul, Nat.add_comm]

theorem flatMapConst_getD (f : ℕ → ℕ → ℚ) (is : ℕ) (indices : List ℕ)
    (i j : ℕ) (hi : i < indices.length) (hj : j < is) :
    (indices.flatMap (fun ix => (List.range is).map (f ix))).getD
        (i * is + j) 0 = f (indices.getD i 0) j := by
  induction indices generalizing i with
  | nil => simp at hi
  | cons hd tl ih =>
      rw [List.flatMap_cons]
      cases i with
      | zero =>
          rw [Nat.zero_mul, Nat.zero_add,
            List.getD_append _ _ _ _ (by simpa using hj),
            List.getD_eq_getElem _ _ (by simpa using hj)]
          simp [hj]
      | succ i =>
          have hlen : ((List.range is).map (f hd)).length = is := by simp
          rw [Nat.succ_mul, Nat.add_comm (i * is) is, Nat.add_assoc,
            List.getD_append_right _ _ _ _ (by omega)]
          rw [hlen, Nat.add_sub_cancel_left]
          simpa using ih i (by simpa using hi)

/-! Preservation lemmas for the bounding-volume recomputation of
`applyMatrix4`. -/

theorem transformAttributes_boundingBox (m : Mat4) (g : BufferGeometry) :
    (transformAttributes m g).boundingBox = g.boundingBox := by
  unfold transformAttributes
  dsimp only
  repeat' split
  all_goals rfl

theorem transformAttributes_boundingSphere (m : Mat4) (g : BufferGeometry) :
    (transformAttributes m g).boundingSphere = g.boundingSphere := by
  unfold transformAttributes
  dsimp only
  repeat' split
  all_goals rfl

theorem computeBoundingBox_boundingSphere (g : BufferGeometry) :
    (computeBoundingBox g).boundingSphere = g.boundingSphere := by
  cases h : List.lookup "position" g.attributes <;> simp [computeBoundingBox, h]

theorem computeBoundingBox_isSome (g : BufferGeometry) :
    (computeBoundingBox g).boundingBox.isSome = true := by
  cases h : List.lookup "position" g.attributes <;> simp [computeBoundingBox, h]

theorem computeBoundingSphere_boundingBox (g : BufferGeometry) :
    (computeBoundingSphere g).boundingBox = g.boundingBox := by
  cases h : List.lookup "position" g.attributes <;>
    simp [computeBoundingSphere, h]

theorem computeBoundingSphere_isSome (g : BufferGeometry) :
    (computeBoundingSphere g).boundingSphere.isSome = true := by
  cases h : List.lookup "position" g.attributes <;>
    simp [computeBoundingSphere, h]

theorem computeBoundingSphere_computeBoundingBox (g : BufferGeometry) :
    (computeBoundingSphere (computeBoundingBox g)).boundingSphere =
      (computeBoundingSphere g).boundingSphere := by
  cases h : List.lookup "position" g.attributes <;>
    simp [computeBoundingBox, computeBoundingSphere, morphPositions, h]

/-- Claim C3, counterexample.  The claim says that if a bounding box or
a bounding sphere was previously computed, then BOTH are recomputed by
`applyMatrix4`.  On `gBoxOnly` — a bounding box has been computed, the
sphere never was — `applyMatrix4` with the identity matrix leaves the
bounding sphere `null`: the source recomputes each volume
independently (`if (this.boundingBox !== null)` and
`if (this.boundingSphere !== null)` are separate guards). -/
theorem claim3_counterexample :
    gBoxOnly.boundingBox.isSome = true ∧
      (applyMatrix4 idMat4 gBoxOnly).boundingSphere = none := by
  decide

/-- Claim C3, amended.  `applyMatrix4` recomputes each bounding volume
independently: the bounding box is recomputed (from the transformed
attributes) exactly when it was previously computed, and likewise the
bounding sphere; a volume that was never computed stays uncomputed. -/
theorem claim3_applyMatrix4_amended (m : Mat4) (g : BufferGeometry) :
    ((applyMatrix4 m g).boundingBox.isSome = g.boundingBox.isSome) ∧
    ((applyMatrix4 m g).boundingSphere.isSome = g.boundingSphere.isSome) ∧
    (g.boundingBox.isSome = true →
      (applyMatrix4 m g).boundingBox =
        (computeBoundingBox (transformAttributes m g)).boundingBox) ∧
    (g.boundingSphere.isSome = true →
      (applyMatrix4 m g).boundingSphere =
        (computeBoundingSphere (transformAttributes m g)).boundingSphere) := by
  have h1 := transformAttributes_boundingBox m g
  have h2 := transformAttributes_boundingSphere m g
  unfold applyMatrix4
  by_cases hbb : (transformAttributes m g).boundingBox.isSome = true <;>
    by_cases hss : (transformAttributes m g).boundingSphere.isSome = true <;>
    simp [hbb, hss, computeBoundingBox_boundingSphere,
      computeBoundingSphere_boundingBox, computeBoundingBox_isSome,
      computeBoundingSphere_isSome, computeBoundingSphere_computeBoundingBox,
      ← h1, ← h2]

/-- Witness for the amended claim C3 at the identity matrix on
`gBoxOnly`, whose box (and only the box) had been computed. -/
theorem claim3_amended_witness :
    gBoxOnly.boundingBox.isSome = true ∧
      (applyMatrix4 idMat4 gBoxOnly).boundingBox =
        (computeBoundingBox (transformAttributes idMat4 gBoxOnly)).boundingBox :=
  ⟨by decide, (claim3_applyMatrix4_amended idMat4 gBoxOnly).2.2.1 (by decide)⟩

/-- Claim C4: with any of index, position, normal or uv missing,
`computeTangents` reports an error (flag `true`) and returns with no
effect at all on the geometry. -/
theorem claim4_computeTangents_missing_noop (g : BufferGeometry)
    (h : g.index = none ∨ List.lookup "position" g.attributes = none ∨
      List.lookup "normal" g.attributes = none ∨
      List.lookup "uv" g.attributes = none) :
    computeTangents g = (g, true) := by
  unfold computeTangents
  split
  · rename_i idx posA normA uvA hI hP hN hU
    rcases h with h | h | h | h <;> simp_all
  · rfl

/-- Witness for claim C4: a geometry with index, position and normal
but no uv attribute is returned unchanged with the error reported. -/
theorem claim4_witness :
    List.lookup "uv" gNoUV.attributes = none ∧
      computeTangents gNoUV = (gNoUV, true) :=
  ⟨by decide, claim4_computeTangents_missing_noop gNoUV
    (Or.inr (Or.inr (Or.inr (by decide))))⟩

/-- Claim C5: a triangle whose UV-delta determinant is zero (the
source's non-finite `r` guard) contributes nothing to the accumulated
tangent/bitangent totals, and the triangle fold over any surrounding
triangles proceeds exactly as if the degenerate triangle were absent. -/
theorem claim5_handleTriangle_degenerate_skip (pos uv : BufferAttribute)
    (a b c : ℕ) (h : tangentDenom uv a b c = 0) :
    (∀ st, handleTriangle pos uv st a b c = st) ∧
    (∀ (ts1 ts2 : List (ℕ × ℕ × ℕ)) (init : List Vec3 × List Vec3),
      (ts1 ++ (a, b, c) :: ts2).foldl
          (fun st t => handleTriangle pos uv st t.1 t.2.1 t.2.2) init =
        (ts1 ++ ts2).foldl
          (fun st t => handleTriangle pos uv st t.1 t.2.1 t.2.2) init) := by
  have hskip : ∀ st, handleTriangle pos uv st a b c = st := by
    intro st
    unfold handleTriangle
    simp [h]
  refine ⟨hskip, fun ts1 ts2 init => ?_⟩
  rw [List.foldl_append, List.foldl_append, List.foldl_cons, hskip]

/-- Witness for claim C5: a triangle whose three UV corners coincide
has zero determinant and is skipped. -/
theorem claim5_witness :
    tangentDenom ⟨[0, 0, 0, 0, 0, 0], 2, false⟩ 0 1 2 = 0 ∧
      handleTriangle ⟨[0, 0, 0, 1, 0, 0, 0, 1, 0], 3, false⟩
        ⟨[0, 0, 0, 0, 0, 0], 2, false⟩ ([], []) 0 1 2 = ([], []) := by
  have h : tangentDenom ⟨[0, 0, 0, 0, 0, 0], 2, false⟩ 0 1 2 = 0 := by
    simp [tangentDenom, getVec2, getComp]
  exact ⟨h,
    (claim5_handleTriangle_degenerate_skip ⟨[0, 0, 0, 1, 0, 0, 0, 1, 0], 3, false⟩
      ⟨[0, 0, 0, 0, 0, 0], 2, false⟩ 0 1 2 h).1 ([], [])⟩

/-- Claim C8: a 2x1x1 box with all segment counts 1 has exactly 24
position vertices, 36 index entries, and six draw groups of count 6
with material indices 0 to 5, in the face order of the six
`buildPlane` calls (+x, -x, +y, -y, +z, -z). -/
theorem claim8_boxGeometry_2x1x1 :
    attrVertexCount (boxGeometry 2 1 1 1 1 1) "position" = 24 ∧
    ((boxGeometry 2 1 1 1 1 1).index.getD []).length = 36 ∧
    (boxGeometry 2 1 1 1 1 1).index.isSome = true ∧
    (boxGeometry 2 1 1 1 1 1).groups =
      [⟨0, 6, 0⟩, ⟨6, 6, 1⟩, ⟨12, 6, 2⟩, ⟨18, 6, 3⟩, ⟨24, 6, 4⟩,
        ⟨30, 6, 5⟩] := by
  decide

/-- Claim C9: with no position attribute, `computeVertexNormals` is a
complete no-op — the whole body is guarded by the position check and
there is no reporting branch. -/
theorem claim9_computeVertexNormals_noop (g : BufferGeometry)
    (h : List.lookup "position" g.attributes = none) :
    computeVertexNormals g = g := by
  simp [computeVertexNormals, h]

/-- Witness for claim C9 on the freshly constructed empty geometry. -/
theorem claim9_witness :
    List.lookup "position" emptyGeometry.attributes = none ∧
      computeVertexNormals emptyGeometry = emptyGeometry :=
  ⟨by decide, claim9_computeVertexNormals_noop emptyGeometry (by decide)⟩

/-- Claim C10: the draw range influences no derivation — after
`setDrawRange` the normals, tangents, bounding box and bounding sphere
computed by the four derivation methods are identical to those computed
without it (none of them reads `drawRange`). -/
theorem claim10_drawRange_no_influence (g : BufferGeometry) (start : ℕ)
    (count : WithTop ℕ) :
    (computeVertexNormals (setDrawRange g start count)).attributes =
      (computeVertexNormals g).attributes ∧
    (computeTangents (setDrawRange g start count)).1.attributes =
      (computeTangents g).1.attributes ∧
    (computeBoundingBox (setDrawRange g start count)).boundingBox =
      (computeBoundingBox g).boundingBox ∧
    (computeBoundingSphere (setDrawRange g start count)).boundingSphere =
      (computeBoundingSphere g).boundingSphere := by
  refine ⟨?_, ?_, ?_, ?_⟩
  · cases h : List.lookup "position" g.attributes <;>
      simp [computeVertexNormals, setDrawRange, h]
  · unfold computeTangents
    cases hI : g.index <;>
      cases hP : List.lookup "position" g.attributes <;>
      cases hN : List.lookup "normal" g.attributes <;>
      cases hU : List.lookup "uv" g.attributes <;>
      by_cases hT : (List.lookup "tangent" g.attributes).isSome = true <;>
      simp [setDrawRange, setAttribute, hI, hP, hN, hU, hT]
  · cases h : List.lookup "position" g.attributes <;>
      simp [computeBoundingBox, setDrawRange, morphPositions, h]
  · cases h : List.lookup "position" g.attributes <;>
      simp [computeBoundingSphere, setDrawRange, morphPositions, h]

/-- Claim C7: `toNonIndexed` on an indexed geometry returns (with no
warning) a new geometry carrying no index, whose morph-relativity flag
and draw groups are copied verbatim, in which every attribute and every
morph-target attribute is replaced by its index expansion; the
expansion of any attribute has exactly `indices.length` vertices and
its `i`-th vertex equals the source vertex at `indices[i]`,
component by component.  On a non-indexed geometry the method warns and
returns the original instance unchanged. -/
theorem claim7_toNonIndexed (g : BufferGeometry) :
    (g.index = none → toNonIndexed g = (g, true)) ∧
    (∀ indices, g.index = some indices →
      (toNonIndexed g).2 = false ∧
      (toNonIndexed g).1.index = none ∧
      (toNonIndexed g).1.morphTargetsRelative = g.morphTargetsRelative ∧
      (toNonIndexed g).1.groups = g.groups ∧
      (∀ name a, List.lookup name g.attributes = some a →
        List.lookup name (toNonIndexed g).1.attributes =
          some (convertBufferAttribute a indices)) ∧
      (∀ name ms, List.lookup name g.morphAttributes = some ms →
        List.lookup name (toNonIndexed g).1.morphAttributes =
          some (ms.map (fun a => convertBufferAttribute a indices))) ∧
      (∀ a : BufferAttribute,
        (0 < a.itemSize →
          vcount (convertBufferAttribute a indices) = indices.length) ∧
        (∀ i, i < indices.length → ∀ j, j < a.itemSize →
          (convertBufferAttribute a indices).array.getD (i * a.itemSize + j) 0 =
            a.array.getD (indices.getD i 0 * a.itemSize + j) 0))) := by
  constructor
  · intro h
    simp [toNonIndexed, h]
  · intro indices h
    refine ⟨by simp [toNonIndexed, h], by simp [toNonIndexed, h, emptyGeometry],
      by simp [toNonIndexed, h], by simp [toNonIndexed, h], ?_, ?_, ?_⟩
    · intro name a ha
      have h2 := lookup_map_pair g.attributes
        (fun x => convertBufferAttribute x indices) name
      rw [ha] at h2
      simpa [toNonIndexed, h] using h2
    · intro name ms hms
      have h2 := lookup_map_pair g.morphAttributes
        (fun l => l.map (fun x => convertBufferAttribute x indices)) name
      rw [hms] at h2
      simpa [toNonIndexed, h] using h2
    · intro a
      constructor
      · intro ha
        show (convertBufferAttribute a indices).array.length /
          (convertBufferAttribute a indices).itemSize = indices.length
        unfold convertBufferAttribute
        rw [flatMapConst_length]
        exact Nat.mul_div_cancel _ ha
      · intro i hi j hj
        unfold convertBufferAttribute
        exact flatMapConst_getD _ _ indices i j hi hj

/-- Witness for claim C7 on the spec's example: index `[0,1,2,2,1,3]`
over four unique vertices expands every attribute to exactly six
vertices and drops the index. -/
theorem claim7_witness :
    gIdx7.index = some [0, 1, 2, 2, 1, 3] ∧
      (toNonIndexed gIdx7).1.index = none ∧
      vcount (convertBufferAttribute
        ⟨[0, 0, 0, 1, 0, 0, 0, 1, 0, 1, 1, 0], 3, false⟩ [0, 1, 2, 2, 1, 3]) = 6 := by
  have h := (claim7_toNonIndexed gIdx7).2 [0, 1, 2, 2, 1, 3] (by decide)
  exact ⟨by decide, h.2.1,
    (h.2.2.2.2.2.2 ⟨[0, 0, 0, 1, 0, 0, 0, 1, 0, 1, 1, 0], 3, false⟩).1 (by decide)⟩

/-! Ordering lemmas for the box-fitting folds (claim C1 and the center
of claim C2). -/

theorem vle_refl (a : Vec3) : vle a a := ⟨le_refl _, le_refl _, le_refl _⟩

theorem vle_trans {a b c : Vec3} (h1 : vle a b) (h2 : vle b c) : vle a c :=
  ⟨le_trans h1.1 h2.1, le_trans h1.2.1 h2.2.1, le_trans h1.2.2 h2.2.2⟩

theorem vadd_mono {a b c d : Vec3} (h1 : vle a b) (h2 : vle c d) :
    vle (vadd a c) (vadd b d) :=
  ⟨add_le_add h1.1 h2.1, add_le_add h1.2.1 h2.2.1, add_le_add h1.2.2 h2.2.2⟩

theorem expandByPoint_min_le (b : Box3) (p : Vec3) :
    vle (expandByPoint b p).min b.min :=
  ⟨min_le_left _ _, min_le_left _ _, min_le_left _ _⟩

theorem expandByPoint_max_ge (b : Box3) (p : Vec3) :
    vle b.max (expandByPoint b p).max :=
  ⟨le_max_left _ _, le_max_left _ _, le_max_left _ _⟩

theorem expandByPoint_min_le_point (b : Box3) (p : Vec3) :
    vle (expandByPoint b p).min p :=
  ⟨min_le_right _ _, min_le_right _ _, min_le_right _ _⟩

theorem expandByPoint_point_le_max (b : Box3) (p : Vec3) :
    vle p (expandByPoint b p).max :=
  ⟨le_max_right _ _, le_max_right _ _, le_max_right _ _⟩

theorem foldExpand_min_le (ps : List Vec3) (b : Box3) :
    vle ((ps.foldl expandByPoint b).min) b.min := by
  induction ps generalizing b with
  | nil => exact vle_refl _
  | cons hd tl ih =>
      exact vle_trans (ih (expandByPoint b hd)) (expandByPoint_min_le b hd)

theorem foldExpand_max_ge (ps : List Vec3) (b : Box3) :
    vle b.max ((ps.foldl expandByPoint b).max) := by
  induction ps generalizing b with
  | nil => exact vle_refl _
  | cons hd tl ih =>
      exact vle_trans (expandByPoint_max_ge b hd) (ih (expandByPoint b hd))

theorem foldExpand_bounds (ps : List Vec3) (b : Box3) (p : Vec3) (hp : p ∈ ps) :
    vle ((ps.foldl expandByPoint b).min) p ∧
      vle p ((ps.foldl expandByPoint b).max) := by
  induction ps generalizing b with
  | nil => cases hp
  | cons hd tl ih =>
      rcases List.mem_cons.mp hp with h | h
      · subst h
        exact ⟨vle_trans (foldExpand_min_le tl _) (expandByPoint_min_le_point b p),
          vle_trans (expandByPoint_point_le_max b p) (foldExpand_max_ge tl _)⟩
      · exact ih (expandByPoint b hd) h

theorem setFromPoints_bounds (ps : List Vec3) (p : Vec3) (hp : p ∈ ps) :
    vle (setFromPoints ps).min p ∧ vle p (setFromPoints ps).max := by
  cases ps with
  | nil => cases hp
  | cons hd tl =>
      rcases List.mem_cons.mp hp with h | h
      · subst h
        exact ⟨foldExpand_min_le tl ⟨p, p⟩, foldExpand_max_ge tl ⟨p, p⟩⟩
      · exact foldExpand_bounds tl ⟨hd, hd⟩ p h

theorem getVec3_mem_attrPoints (a : BufferAttribute) (i : ℕ)
    (hi : i < vcount a) : getVec3 a i ∈ attrPoints a := by
  unfold attrPoints
  exact List.mem_map.mpr ⟨i, List.mem_range.mpr hi, rfl⟩

theorem setFromBufferAttribute_bounds (a : BufferAttribute) (i : ℕ)
    (hi : i < vcount a) :
    vle (setFromBufferAttribute a).min (getVec3 a i) ∧
      vle (getVec3 a i) (setFromBufferAttribute a).max :=
  setFromPoints_bounds _ _ (getVec3_mem_attrPoints a i hi)

theorem morphExpand_min_le (rel : Bool) (b : Box3) (m : BufferAttribute) :
    vle (morphExpand rel b m).min b.min := by
  cases rel with
  | false =>
      exact vle_trans (vle_trans (expandByPoint_min_le _ _)
        (expandByPoint_min_le _ _)) (vle_refl _)
  | true =>
      exact vle_trans (expandByPoint_min_le _ _) (expandByPoint_min_le _ _)

theorem morphExpand_max_ge (rel : Bool) (b : Box3) (m : BufferAttribute) :
    vle b.max (morphExpand rel b m).max := by
  cases rel with
  | false =>
      exact vle_trans (expandByPoint_max_ge _ _) (expandByPoint_max_ge _ _)
  | true =>
      exact vle_trans (expandByPoint_max_ge _ _) (expandByPoint_max_ge _ _)

theorem morphFold_min_le (rel : Bool) (ms : List BufferAttribute) (b : Box3) :
    vle ((ms.foldl (morphExpand rel) b).min) b.min := by
  induction ms generalizing b with
  | nil => exact vle_refl _
  | cons hd tl ih =>
      exact vle_trans (ih (morphExpand rel b hd)) (morphExpand_min_le rel b hd)

theorem morphFold_max_ge (rel : Bool) (ms : List BufferAttribute) (b : Box3) :
    vle b.max ((ms.foldl (morphExpand rel) b).max) := by
  induction ms generalizing b with
  | nil => exact vle_refl _
  | cons hd tl ih =>
      exact vle_trans (morphExpand_max_ge rel b hd) (ih (morphExpand rel b hd))

theorem morphFold_preserve (rel : Bool) (ms : List BufferAttribute) (b : Box3)
    (v : Vec3) (h1 : vle b.min v) (h2 : vle v b.max) :
    vle ((ms.foldl (morphExpand rel) b).min) v ∧
      vle v ((ms.foldl (morphExpand rel) b).max) :=
  ⟨vle_trans (morphFold_min_le rel ms b) h1,
    vle_trans h2 (morphFold_max_ge rel ms b)⟩

theorem morphExpand_rel_bound (b : Box3) (m : BufferAttribute) (q r : Vec3)
    (hq1 : vle b.min q) (hq2 : vle q b.max)
    (hr1 : vle (setFromBufferAttribute m).min r)
    (hr2 : vle r (setFromBufferAttribute m).max) :
    vle (morphExpand true b m).min (vadd q r) ∧
      vle (vadd q r) (morphExpand true b m).max := by
  have e : morphExpand true b m =
      expandByPoint (expandByPoint b (vadd b.min (setFromBufferAttribute m).min))
        (vadd (expandByPoint b (vadd b.min (setFromBufferAttribute m).min)).max
          (setFromBufferAttribute m).max) := rfl
  rw [e]
  constructor
  · exact vle_trans (expandByPoint_min_le _ _)
      (vle_trans (expandByPoint_min_le_point _ _) (vadd_mono hq1 hr1))
  · exact vle_trans (vadd_mono hq2 hr2)
      (vle_trans (vadd_mono (expandByPoint_max_ge _ _) (vle_refl _))
        (expandByPoint_point_le_max _ _))

theorem morphExpand_abs_bound (b : Box3) (m : BufferAttribute) (r : Vec3)
    (hr1 : vle (setFromBufferAttribute m).min r)
    (hr2 : vle r (setFromBufferAttribute m).max) :
    vle (morphExpand false b m).min r ∧ vle r (morphExpand false b m).max := by
  have e : morphExpand false b m =
      expandByPoint (expandByPoint b (setFromBufferAttribute m).min)
        (setFromBufferAttribute m).max := rfl
  rw [e]
  constructor
  · exact vle_trans (expandByPoint_min_le _ _)
      (vle_trans (expandByPoint_min_le_point _ _) hr1)
  · exact vle_trans hr2 (expandByPoint_point_le_max _ _)

theorem morphFold_rel_bound (ms : List BufferAttribute) (b : Box3)
    (m : BufferAttribute) (hm : m ∈ ms) (q r : Vec3)
    (hq1 : vle b.min q) (hq2 : vle q b.max)
    (hr1 : vle (setFromBufferAttribute m).min r)
    (hr2 : vle r (setFromBufferAttribute m).max) :
    vle ((ms.foldl (morphExpand true) b).min) (vadd q r) ∧
      vle (vadd q r) ((ms.foldl (morphExpand true) b).max) := by
  induction ms generalizing b with
  | nil => cases hm
  | cons hd tl ih =>
      rcases List.mem_cons.mp hm with h | h
      · subst h
        have hb := morphExpand_rel_bound b m q r hq1 hq2 hr1 hr2
        exact morphFold_preserve true tl (morphExpand true b m) _ hb.1 hb.2
      · exact ih (morphExpand true b hd) h
          (vle_trans (morphExpand_min_le true b hd) hq1)
          (vle_trans hq2 (morphExpand_max_ge true b hd))

theorem morphFold_abs_bound (ms : List BufferAttribute) (b : Box3)
    (m : BufferAttribute) (hm : m ∈ ms) (r : Vec3)
    (hr1 : vle (setFromBufferAttribute m).min r)
    (hr2 : vle r (setFromBufferAttribute m).max) :
    vle ((ms.foldl (morphExpand false) b).min) r ∧
      vle r ((ms.foldl (morphExpand false) b).max) := by
  induction ms generalizing b with
  | nil => cases hm
  | cons hd tl ih =>
      rcases List.mem_cons.mp hm with h | h
      · subst h
        have hb := morphExpand_abs_bound b m r hr1 hr2
        exact morphFold_preserve false tl (morphExpand false b m) _ hb.1 hb.2
      · exact ih (morphExpand false b hd) h

/-- Claim C1: for every geometry whose position attribute is readable,
after `computeBoundingBox` the stored box bounds every position vertex
componentwise, and also every morph-expanded position — base plus delta
for every morph vertex in relative mode, the morph position itself in
absolute mode. -/
theorem claim1_computeBoundingBox_bounds (g : BufferGeometry)
    (pos : BufferAttribute)
    (hpos : List.lookup "position" g.attributes = some pos) :
    ∃ box, (computeBoundingBox g).boundingBox = some box ∧
      (∀ i, i < vcount pos →
        vle box.min (getVec3 pos i) ∧ vle (getVec3 pos i) box.max) ∧
      (∀ ms, List.lookup "position" g.morphAttributes = some ms →
        ∀ m, m ∈ ms → ∀ j, j < vcount m →
          (g.morphTargetsRelative = true → j < vcount pos →
            vle box.min (vadd (getVec3 pos j) (getVec3 m j)) ∧
              vle (vadd (getVec3 pos j) (getVec3 m j)) box.max) ∧
          (g.morphTargetsRelative = false →
            vle box.min (getVec3 m j) ∧ vle (getVec3 m j) box.max)) := by
  refine ⟨expandedBox pos (morphPositions g) g.morphTargetsRelative,
    by simp [computeBoundingBox, hpos], ?_, ?_⟩
  · intro i hi
    have hb := setFromBufferAttribute_bounds pos i hi
    exact morphFold_preserve g.morphTargetsRelative (morphPositions g)
      (setFromBufferAttribute pos) _ hb.1 hb.2
  · intro ms hms m hm j hj
    have hmem : m ∈ morphPositions g := by
      unfold morphPositions
      rw [hms]
      exact hm
    constructor
    · intro hrel hjp
      have hq := setFromBufferAttribute_bounds pos j hjp
      have hr := setFromBufferAttribute_bounds m j hj
      unfold expandedBox
      rw [hrel]
      exact morphFold_rel_bound (morphPositions g) (setFromBufferAttribute pos)
        m hmem _ _ hq.1 hq.2 hr.1 hr.2
    · intro hrel
      have hr := setFromBufferAttribute_bounds m j hj
      unfold expandedBox
      rw [hrel]
      exact morphFold_abs_bound (morphPositions g) (setFromBufferAttribute pos)
        m hmem _ hr.1 hr.2

/-- Witness for claim C1 on a two-vertex geometry with one relative
morph target: both a base vertex and a base-plus-delta morph vertex lie
inside the computed box. -/
theorem claim1_witness :
    ∃ box, (computeBoundingBox gMorphRel).boundingBox = some box ∧
      (vle box.min (getVec3 ⟨[0, 0, 0, 2, 1, 0], 3, false⟩ 1) ∧
        vle (getVec3 ⟨[0, 0, 0, 2, 1, 0], 3, false⟩ 1) box.max) ∧
      (vle box.min (vadd (getVec3 ⟨[0, 0, 0, 2, 1, 0], 3, false⟩ 0)
          (getVec3 ⟨[1, 1, 1, -1, 0, 0], 3, false⟩ 0)) ∧
        vle (vadd (getVec3 ⟨[0, 0, 0, 2, 1, 0], 3, false⟩ 0)
          (getVec3 ⟨[1, 1, 1, -1, 0, 0], 3, false⟩ 0)) box.max) := by
  obtain ⟨box, hb, hbase, hmorph⟩ := claim1_computeBoundingBox_bounds gMorphRel
    ⟨[0, 0, 0, 2, 1, 0], 3, false⟩ (by simp [gMorphRel, List.lookup])
  refine ⟨box, hb, hbase 1 (by decide), ?_⟩
  exact (hmorph [⟨[1, 1, 1, -1, 0, 0], 3, false⟩]
    (by simp [gMorphRel, List.lookup]) ⟨[1, 1, 1, -1, 0, 0], 3, false⟩
    (by simp) 0 (by decide)).1 (by simp [gMorphRel]) (by decide)

/-! Lemmas about the running-maximum folds of the bounding-sphere
radius pass (claim C2). -/

theorem foldlMax_le_start {α : Type} (f : α → ℚ) (l : List α) (acc : ℚ) :
    acc ≤ l.foldl (fun a x => max a (f x)) acc := by
  induction l generalizing acc with
  | nil => exact le_refl _
  | cons hd tl ih => exact le_trans (le_max_left _ _) (ih _)

theorem foldlMax_mem_le {α : Type} (f : α → ℚ) (l : List α) (x : α)
    (hx : x ∈ l) (acc : ℚ) :
    f x ≤ l.foldl (fun a y => max a (f y)) acc := by
  induction l generalizing acc with
  | nil => cases hx
  | cons hd tl ih =>
      rcases List.mem_cons.mp hx with h | h
      · subst h
        exact le_trans (le_max_right _ _) (foldlMax_le_start f tl _)
      · exact ih h _

theorem foldlMax_attained {α : Type} (f : α → ℚ) (l : List α) (acc : ℚ) :
    l.foldl (fun a y => max a (f y)) acc = acc ∨
      ∃ x ∈ l, l.foldl (fun a y => max a (f y)) acc = f x := by
  induction l generalizing acc with
  | nil => exact Or.inl rfl
  | cons hd tl ih =>
      rcases ih (max acc (f hd)) with h | ⟨x, hx, h⟩
      · rcases max_choice acc (f hd) with hm | hm
        · exact Or.inl (by rw [List.foldl_cons, h, hm])
        · exact Or.inr ⟨hd, List.mem_cons_self _ _, by rw [List.foldl_cons, h, hm]⟩
      · exact Or.inr ⟨x, List.mem_cons_of_mem _ hx, by rw [List.foldl_cons, h]⟩

theorem nestedMax_le_start (F : BufferAttribute → ℕ → ℚ)
    (ms : List BufferAttribute) (acc : ℚ) :
    acc ≤ ms.foldl (fun a m =>
      (List.range (vcount m)).foldl (fun a2 j => max a2 (F m j)) a) acc := by
  induction ms generalizing acc with
  | nil => exact le_refl _
  | cons hd tl ih =>
      exact le_trans (foldlMax_le_start (F hd) (List.range (vcount hd)) acc)
        (ih _)

theorem nestedMax_mem_le (F : BufferAttribute → ℕ → ℚ)
    (ms : List BufferAttribute) (m : BufferAttribute) (j : ℕ)
    (hm : m ∈ ms) (hj : j < vcount m) (acc : ℚ) :
    F m j ≤ ms.foldl (fun a m2 =>
      (List.range (vcount m2)).foldl (fun a2 j2 => max a2 (F m2 j2)) a) acc := by
  induction ms generalizing acc with
  | nil => cases hm
  | cons hd tl ih =>
      rcases List.mem_cons.mp hm with h | h
      · subst h
        exact le_trans
          (foldlMax_mem_le (F m) (List.range (vcount m)) j
            (List.mem_range.mpr hj) acc)
          (nestedMax_le_start F tl _)
      · exact ih h _

theorem nestedMax_attained (F : BufferAttribute → ℕ → ℚ)
    (ms : List BufferAttribute) (acc : ℚ) :
    ms.foldl (fun a m =>
        (List.range (vcount m)).foldl (fun a2 j => max a2 (F m j)) a) acc = acc ∨
      ∃ m ∈ ms, ∃ j, j < vcount m ∧
        ms.foldl (fun a m2 =>
          (List.range (vcount m2)).foldl (fun a2 j2 => max a2 (F m2 j2)) a) acc =
          F m j := by
  induction ms generalizing acc with
  | nil => exact Or.inl rfl
  | cons hd tl ih =>
      rcases ih ((List.range (vcount hd)).foldl
          (fun a2 j => max a2 (F hd j)) acc) with h | ⟨m, hm, j, hj, h⟩
      · rcases foldlMax_attained (F hd) (List.range (vcount hd)) acc with
          h2 | ⟨j, hjm, h2⟩
        · exact Or.inl (by rw [List.foldl_cons, h, h2])
        · exact Or.inr ⟨hd, List.mem_cons_self _ _, j, List.mem_range.mp hjm,
            by rw [List.foldl_cons, h, h2]⟩
      · exact Or.inr ⟨m, List.mem_cons_of_mem _ hm, j, hj,
          by rw [List.foldl_cons, h]⟩

theorem distanceToSquared_nonneg (a b : Vec3) : 0 ≤ distanceToSquared a b := by
  unfold distanceToSquared
  positivity

/-- Claim C2: for a geometry with a non-empty readable position
attribute, `computeBoundingSphere` stores a sphere whose center is the
centroid of the morph-expanded bounding box and whose squared radius is
exactly the maximum squared distance from that center over every vertex
and every morph-expanded vertex: every such vertex lies within the
radius and at least one attains it (the stored radius of the source is
the square root of this maximum).  The morph-count hypothesis is the
spec's attribute-consistency invariant, under which the second pass's
per-vertex base offset reads stay in range. -/
theorem claim2_computeBoundingSphere_radius (g : BufferGeometry)
    (pos : BufferAttribute)
    (hpos : List.lookup "position" g.attributes = some pos)
    (hne : 0 < vcount pos)
    (_hcounts : g.morphTargetsRelative = true →
      ∀ m ∈ morphPositions g, vcount m ≤ vcount pos) :
    ∃ s, (computeBoundingSphere g).boundingSphere = some s ∧
      s.center =
        boxGetCenter (expandedBox pos (morphPositions g) g.morphTargetsRelative) ∧
      (∀ i, i < vcount pos →
        distanceToSquared s.center (getVec3 pos i) ≤ s.radius2) ∧
      (∀ m ∈ morphPositions g, ∀ j, j < vcount m →
        distanceToSquared s.center
          (morphPoint pos g.morphTargetsRelative m j) ≤ s.radius2) ∧
      ((∃ i, i < vcount pos ∧
          distanceToSquared s.center (getVec3 pos i) = s.radius2) ∨
        (∃ m ∈ morphPositions g, ∃ j, j < vcount m ∧
          distanceToSquared s.center
            (morphPoint pos g.morphTargetsRelative m j) = s.radius2)) := by
  simp only [computeBoundingSphere, hpos]
  refine ⟨_, rfl, rfl, ?_, ?_, ?_⟩
  · intro i hi
    exact le_trans
      (foldlMax_mem_le _ (attrPoints pos) _ (getVec3_mem_attrPoints pos i hi) 0)
      (nestedMax_le_start _ (morphPositions g) _)
  · intro m hm j hj
    exact nestedMax_mem_le _ (morphPositions g) m j hm hj _
  · rcases nestedMax_attained
      (fun m j => distanceToSquared
        (boxGetCenter (expandedBox pos (morphPositions g) g.morphTargetsRelative))
        (morphPoint pos g.morphTargetsRelative m j))
      (morphPositions g)
      ((attrPoints pos).foldl
        (fun acc p => max acc (distanceToSquared
          (boxGetCenter (expandedBox pos (morphPositions g) g.morphTargetsRelative))
          p)) 0) with h | ⟨m, hm, j, hj, h⟩
    · rcases foldlMax_attained
        (distanceToSquared
          (boxGetCenter (expandedBox pos (morphPositions g) g.morphTargetsRelative)))
        (attrPoints pos) 0 with h2 | ⟨x, hx, h2⟩
      · refine Or.inl ⟨0, hne, ?_⟩
        have hle : distanceToSquared
            (boxGetCenter (expandedBox pos (morphPositions g) g.morphTargetsRelative))
            (getVec3 pos 0) ≤ 0 := by
          rw [← h2]
          exact foldlMax_mem_le _ (attrPoints pos) _
            (getVec3_mem_attrPoints pos 0 hne) 0
        rw [h, h2]
        exact le_antisymm hle (distanceToSquared_nonneg _ _)
      · rcases List.mem_map.mp hx with ⟨i, hir, hieq⟩
        refine Or.inl ⟨i, List.mem_range.mp hir, ?_⟩
        rw [h, h2, hieq]
    · exact Or.inr ⟨m, hm, j, hj, h.symm⟩

/-- Witness for claim C2 on the two-vertex geometry with one relative
morph target: the computed sphere exists and covers the first vertex. -/
theorem claim2_witness :
    ∃ s, (computeBoundingSphere gMorphRel).boundingSphere = some s ∧
      distanceToSquared s.center
        (getVec3 ⟨[0, 0, 0, 2, 1, 0], 3, false⟩ 0) ≤ s.radius2 := by
  obtain ⟨s, hs, _hc, hb, _hm, _hat⟩ :=
    claim2_computeBoundingSphere_radius gMorphRel
      ⟨[0, 0, 0, 2, 1, 0], 3, false⟩ (by simp [gMorphRel, List.lookup])
      (by decide)
      (fun _ m hm => by
        simp [morphPositions, gMorphRel, List.lookup] at hm
        subst hm
        decide)
  exact ⟨s, hs, hb 0 (by decide)⟩

/-! Pointwise array lemmas for claim C6 (idempotence of
`computeVertexNormals`).  The second call zeroes the normal attribute
before recomputing; the lemmas below show that the zeroed state — and
hence the recomputation — is independent of the values the first call
wrote, provided the normal attribute satisfies the data model's
invariant that its array length is an exact multiple of its item
width. -/

theorem battr_ext (X Y : BufferAttribute) (h1 : X.array = Y.array)
    (h2 : X.itemSize = Y.itemSize) (h3 : X.normalized = Y.normalized) :
    X = Y := by
  cases X
  cases Y
  simp_all

theorem list_ext_getD (l l2 : List ℚ) (hlen : l.length = l2.length)
    (h : ∀ p, l.getD p 0 = l2.getD p 0) : l = l2 := by
  apply List.ext_getElem hlen
  intro i h1 h2
  have hp := h i
  rwa [List.getD_eq_getElem _ _ h1, List.getD_eq_getElem _ _ h2] at hp

theorem getD_set_char (l : List ℚ) (n p : ℕ) (a : ℚ) :
    (l.set n a).getD p 0 = if n = p ∧ p < l.length then a else l.getD p 0 := by
  by_cases h1 : n = p
  · subst h1
    by_cases h2 : n < l.length
    · rw [if_pos ⟨rfl, h2⟩, List.getD_eq_getElem _ _ (by simpa using h2)]
      simp [List.getElem_set]
    · rw [if_neg (fun hc => h2 hc.2), List.getD_eq_default _ _ (by simpa using h2),
        List.getD_eq_default _ _ (by omega)]
  · rw [if_neg (fun hc => h1 hc.1), List.getD_eq_getD_get?,
      List.getD_eq_getD_get?, List.get?_eq_getElem?, List.get?_eq_getElem?,
      List.getElem?_set_ne h1]

theorem getD_replicate (k p : ℕ) :
    (List.replicate k (0 : ℚ)).getD p 0 = 0 := by
  by_cases h : p < k
  · rw [List.getD_eq_getElem _ _ (by simpa using h)]
    simp
  · rw [List.getD_eq_default _ _ (by simpa using h)]

theorem setXYZ_array_length (a : BufferAttribute) (i : ℕ) (x y z : ℚ) :
    (setXYZ a i x y z).array.length = a.array.length := by
  simp [setXYZ]

theorem setXYZ_getD_untouched (a : BufferAttribute) (i : ℕ) (x y z : ℚ)
    (p : ℕ) (h : ¬(i * a.itemSize ≤ p ∧ p ≤ i * a.itemSize + 2)) :
    (setXYZ a i x y z).array.getD p 0 = a.array.getD p 0 := by
  unfold setXYZ
  dsimp only
  have hq : i * a.itemSize ≤ p ∧ p ≤ i * a.itemSize + 2 → False := h
  generalize hg : i * a.itemSize = q at hq
  rw [getD_set_char, if_neg (by omega), getD_set_char, if_neg (by omega),
    getD_set_char, if_neg (by omega)]

theorem setXYZ_getD_zero_touched (a : BufferAttribute) (i : ℕ) (p : ℕ)
    (h1 : i * a.itemSize ≤ p) (h2 : p ≤ i * a.itemSize + 2)
    (hp : p < a.array.length) :
    (setXYZ a i 0 0 0).array.getD p 0 = 0 := by
  unfold setXYZ
  dsimp only
  generalize hg : i * a.itemSize = q at h1 h2
  have hcases : p = q ∨ p = q + 1 ∨ p = q + 2 := by omega
  rcases hcases with h | h | h
  · rw [getD_set_char, if_neg (by simp only [List.length_set]; omega),
      getD_set_char, if_neg (by simp only [List.length_set]; omega),
      getD_set_char, if_pos (by omega)]
  · rw [getD_set_char, if_neg (by simp only [List.length_set]; omega),
      getD_set_char, if_pos (by simp only [List.length_set]; omega)]
  · rw [getD_set_char, if_pos (by simp only [List.length_set]; omega)]

theorem foldl_setXYZ_shape {α : Type} (step : BufferAttribute → α → BufferAttribute)
    (hlen : ∀ A x, (step A x).array.length = A.array.length)
    (his : ∀ A x, (step A x).itemSize = A.itemSize)
    (hnrm : ∀ A x, (step A x).normalized = A.normalized)
    (l : List α) (A : BufferAttribute) :
    (l.foldl step A).array.length = A.array.length ∧
    (l.foldl step A).itemSize = A.itemSize ∧
    (l.foldl step A).normalized = A.normalized := by
  induction l generalizing A with
  | nil => exact ⟨rfl, rfl, rfl⟩
  | cons hd tl ih =>
      obtain ⟨h1, h2, h3⟩ := ih (step A hd)
      exact ⟨h1.trans (hlen A hd), h2.trans (his A hd), h3.trans (hnrm A hd)⟩

theorem foldl_untouched {α : Type} (step : BufferAttribute → α → BufferAttribute)
    (is p : ℕ)
    (hsis : ∀ A x, (step A x).itemSize = A.itemSize)
    (hstep : ∀ A x, A.itemSize = is → (step A x).array.getD p 0 = A.array.getD p 0)
    (l : List α) (A : BufferAttribute) (hA : A.itemSize = is) :
    (l.foldl step A).array.getD p 0 = A.array.getD p 0 := by
  induction l generalizing A with
  | nil => rfl
  | cons hd tl ih =>
      rw [List.foldl_cons, ih (step A hd) ((hsis A hd).trans hA), hstep A hd hA]

theorem zeroFold_getD_zero (n : BufferAttribute) (m p i : ℕ) (hi : i < m)
    (h1 : i * n.itemSize ≤ p) (h2 : p ≤ i * n.itemSize + 2)
    (hp : p < n.array.length) :
    ((List.range m).foldl (fun acc k => setXYZ acc k 0 0 0) n).array.getD p 0 =
      0 := by
  induction m with
  | zero => omega
  | succ m ih =>
      rw [List.range_succ, List.foldl_append, List.foldl_cons, List.foldl_nil]
      have hmeta := foldl_setXYZ_shape (fun acc k => setXYZ acc k 0 0 0)
        (fun A k => setXYZ_array_length A k 0 0 0) (fun A k => rfl)
        (fun A k => rfl) (List.range m) n
      by_cases him : i = m
      · subst him
        exact setXYZ_getD_zero_touched _ i p (by rw [hmeta.2.1]; exact h1)
          (by rw [hmeta.2.1]; exact h2) (by rw [hmeta.1]; exact hp)
      · by_cases hmt : m * n.itemSize ≤ p ∧ p ≤ m * n.itemSize + 2
        · exact setXYZ_getD_zero_touched _ m p (by rw [hmeta.2.1]; exact hmt.1)
            (by rw [hmeta.2.1]; exact hmt.2) (by rw [hmeta.1]; exact hp)
        · rw [setXYZ_getD_untouched _ m 0 0 0 p (by rw [hmeta.2.1]; exact hmt)]
          exact ih (by omega)

theorem zeroFold_getD_skip (n : BufferAttribute) (m p : ℕ)
    (hp : ¬∃ i, i < m ∧ i * n.itemSize ≤ p ∧ p ≤ i * n.itemSize + 2) :
    ((List.range m).foldl (fun acc k => setXYZ acc k 0 0 0) n).array.getD p 0 =
      n.array.getD p 0 := by
  induction m with
  | zero => rfl
  | succ m ih =>
      rw [List.range_succ, List.foldl_append, List.foldl_cons, List.foldl_nil]
      have hmeta := foldl_setXYZ_shape (fun acc k => setXYZ acc k 0 0 0)
        (fun A k => setXYZ_array_length A k 0 0 0) (fun A k => rfl)
        (fun A k => rfl) (List.range m) n
      rw [setXYZ_getD_untouched _ m 0 0 0 p (by
        rw [hmeta.2.1]
        intro hc
        exact hp ⟨m, by omega, hc.1, hc.2⟩)]
      exact ih (fun ⟨i, hi, hc1, hc2⟩ => hp ⟨i, by omega, hc1, hc2⟩)

theorem zeroEntries_meta (n : BufferAttribute) :
    (zeroEntries n).array.length = n.array.length ∧
    (zeroEntries n).itemSize = n.itemSize ∧
    (zeroEntries n).normalized = n.normalized := by
  unfold zeroEntries
  exact foldl_setXYZ_shape _ (fun A k => setXYZ_array_length A k 0 0 0)
    (fun A k => rfl) (fun A k => rfl) _ n

theorem accFold_meta (pos : BufferAttribute) (tris : List (ℕ × ℕ × ℕ))
    (A : BufferAttribute) :
    (tris.foldl (accumulateFaceNormal pos) A).array.length = A.array.length ∧
    (tris.foldl (accumulateFaceNormal pos) A).itemSize = A.itemSize ∧
    (tris.foldl (accumulateFaceNormal pos) A).normalized = A.normalized :=
  foldl_setXYZ_shape (accumulateFaceNormal pos)
    (fun B t => by simp [accumulateFaceNormal, setXYZ])
    (fun B t => rfl) (fun B t => rfl) tris A

theorem flatFaceNormals_meta (pos A : BufferAttribute) :
    (flatFaceNormals pos A).array.length = A.array.length ∧
    (flatFaceNormals pos A).itemSize = A.itemSize ∧
    (flatFaceNormals pos A).normalized = A.normalized := by
  unfold flatFaceNormals
  refine foldl_setXYZ_shape _ ?_ ?_ ?_ _ A
  · intro B t
    simp [setXYZ]
  · intro B t
    rfl
  · intro B t
    rfl

theorem normalizeNormals_meta (A : BufferAttribute) :
    (normalizeNormals A).array.length = A.array.length ∧
    (normalizeNormals A).itemSize = A.itemSize ∧
    (normalizeNormals A).normalized = A.normalized := by
  unfold normalizeNormals
  refine foldl_setXYZ_shape _ ?_ ?_ ?_ _ A
  · intro B i
    simp [setXYZ]
  · intro B i
    rfl
  · intro B i
    rfl

theorem touch_to_zeroed (is len p v : ℕ) (hdvd : is ∣ len) (hp : p < len)
    (h1 : v * is ≤ p) (h2 : p ≤ v * is + 2) :
    ∃ i, i < len / is ∧ i * is ≤ p ∧ p ≤ i * is + 2 := by
  refine ⟨v, ?_, h1, h2⟩
  rcases Nat.eq_zero_or_pos is with h0 | h0
  · subst h0
    have : len = 0 := Nat.eq_zero_of_zero_dvd hdvd
    omega
  · have hlt : v * is < len := lt_of_le_of_lt h1 hp
    have hlen : len = len / is * is := (Nat.div_mul_cancel hdvd).symm
    rw [hlen] at hlt
    exact Nat.lt_of_mul_lt_mul_right hlt

theorem zeroEntries_congr (X Y : BufferAttribute)
    (hlen : X.array.length = Y.array.length)
    (his : X.itemSize = Y.itemSize)
    (hnrm : X.normalized = Y.normalized)
    (hagree : ∀ p, p < Y.array.length →
      ¬(∃ i, i < vcount Y ∧ i * Y.itemSize ≤ p ∧ p ≤ i * Y.itemSize + 2) →
      X.array.getD p 0 = Y.array.getD p 0) :
    zeroEntries X = zeroEntries Y := by
  have hmX := zeroEntries_meta X
  have hmY := zeroEntries_meta Y
  have hvc : vcount X = vcount Y := by
    unfold vcount
    rw [hlen, his]
  apply battr_ext
  · apply list_ext_getD
    · rw [hmX.1, hmY.1, hlen]
    · intro p
      show ((List.range (vcount X)).foldl (fun acc k => setXYZ acc k 0 0 0)
          X).array.getD p 0 =
        ((List.range (vcount Y)).foldl (fun acc k => setXYZ acc k 0 0 0)
          Y).array.getD p 0
      by_cases hp : p < Y.array.length
      · by_cases hz : ∃ i, i < vcount Y ∧ i * Y.itemSize ≤ p ∧
            p ≤ i * Y.itemSize + 2
        · obtain ⟨i, hi, h1, h2⟩ := hz
          rw [zeroFold_getD_zero X (vcount X) p i (by omega)
              (by rw [his]; exact h1) (by rw [his]; exact h2)
              (by rw [hlen]; exact hp),
            zeroFold_getD_zero Y (vcount Y) p i hi h1 h2 hp]
        · rw [zeroFold_getD_skip X (vcount X) p (fun ⟨i, hi, h1, h2⟩ =>
              hz ⟨i, by omega, by rw [← his]; exact h1,
                by rw [← his]; exact h2⟩),
            zeroFold_getD_skip Y (vcount Y) p hz]
          exact hagree p hp hz
      · rw [List.getD_eq_default _ _ (by
            show ((List.range (vcount X)).foldl _ X).array.length ≤ p
            have : ((List.range (vcount X)).foldl
                (fun acc k => setXYZ acc k 0 0 0) X).array.length =
                X.array.length := (zeroEntries_meta X).1
            omega),
          List.getD_eq_default _ _ (by
            show ((List.range (vcount Y)).foldl _ Y).array.length ≤ p
            have : ((List.range (vcount Y)).foldl
                (fun acc k => setXYZ acc k 0 0 0) Y).array.length =
                Y.array.length := (zeroEntries_meta Y).1
            omega)]
  · rw [hmX.2.1, hmY.2.1, his]
  · rw [hmX.2.2, hmY.2.2, hnrm]

theorem zeroEntries_idem (n : BufferAttribute) :
    zeroEntries (zeroEntries n) = zeroEntries n := by
  have hm := zeroEntries_meta n
  apply zeroEntries_congr _ _ hm.1 hm.2.1 hm.2.2
  intro p hp hz
  show ((List.range (vcount n)).foldl (fun acc k => setXYZ acc k 0 0 0)
      n).array.getD p 0 = n.array.getD p 0
  exact zeroFold_getD_skip n (vcount n) p hz

theorem zeroEntries_replicate (k is : ℕ) (b : Bool) :
    zeroEntries ⟨List.replicate k 0, is, b⟩ = ⟨List.replicate k 0, is, b⟩ := by
  have hm := zeroEntries_meta ⟨List.replicate k 0, is, b⟩
  apply battr_ext
  · apply list_ext_getD
    · rw [hm.1]
    · intro p
      by_cases hz : ∃ i, i < vcount (⟨List.replicate k 0, is, b⟩ : BufferAttribute) ∧
          i * is ≤ p ∧ p ≤ i * is + 2
      · by_cases hp : p < k
        · obtain ⟨i, hi, h1, h2⟩ := hz
          rw [getD_replicate]
          show ((List.range (vcount (⟨List.replicate k 0, is, b⟩ :
              BufferAttribute))).foldl (fun acc j => setXYZ acc j 0 0 0)
            ⟨List.replicate k 0, is, b⟩).array.getD p 0 = 0
          exact zeroFold_getD_zero ⟨List.replicate k 0, is, b⟩ _ p i hi h1 h2
            (by simpa using hp)
        · rw [List.getD_eq_default _ _ (by
              have := hm.1
              simp only [List.length_replicate] at this
              omega)]
          rw [getD_replicate]
      · show ((List.range (vcount (⟨List.replicate k 0, is, b⟩ :
            BufferAttribute))).foldl (fun acc j => setXYZ acc j 0 0 0)
          ⟨List.replicate k 0, is, b⟩).array.getD p 0 = _
        exact zeroFold_getD_skip ⟨List.replicate k 0, is, b⟩ _ p hz
  · exact hm.2.1
  · exact hm.2.2

theorem setXYZ3_getD_untouched (A : BufferAttribute) (v1 v2 v3 : ℕ)
    (x1 y1 z1 x2 y2 z2 x3 y3 z3 : ℚ) (p : ℕ)
    (h1 : ¬(v1 * A.itemSize ≤ p ∧ p ≤ v1 * A.itemSize + 2))
    (h2 : ¬(v2 * A.itemSize ≤ p ∧ p ≤ v2 * A.itemSize + 2))
    (h3 : ¬(v3 * A.itemSize ≤ p ∧ p ≤ v3 * A.itemSize + 2)) :
    (setXYZ (setXYZ (setXYZ A v1 x1 y1 z1) v2 x2 y2 z2)
      v3 x3 y3 z3).array.getD p 0 = A.array.getD p 0 := by
  rw [setXYZ_getD_untouched (setXYZ (setXYZ A v1 x1 y1 z1) v2 x2 y2 z2)
      v3 x3 y3 z3 p h3,
    setXYZ_getD_untouched (setXYZ A v1 x1 y1 z1) v2 x2 y2 z2 p h2,
    setXYZ_getD_untouched A v1 x1 y1 z1 p h1]

theorem accumulateFaceNormal_untouched (pos B : BufferAttribute)
    (t : ℕ × ℕ × ℕ) (p : ℕ)
    (h : ¬∃ v, v * B.itemSize ≤ p ∧ p ≤ v * B.itemSize + 2) :
    (accumulateFaceNormal pos B t).array.getD p 0 = B.array.getD p 0 := by
  unfold accumulateFaceNormal
  dsimp only
  apply setXYZ3_getD_untouched
  · exact fun hc => h ⟨t.1, hc⟩
  · exact fun hc => h ⟨t.2.1, hc⟩
  · exact fun hc => h ⟨t.2.2, hc⟩

theorem accFold_untouched (pos : BufferAttribute) (tris : List (ℕ × ℕ × ℕ))
    (n0 : BufferAttribute) (p : ℕ)
    (h : ¬∃ v, v * n0.itemSize ≤ p ∧ p ≤ v * n0.itemSize + 2) :
    (tris.foldl (accumulateFaceNormal pos) n0).array.getD p 0 =
      n0.array.getD p 0 := by
  refine foldl_untouched (accumulateFaceNormal pos) n0.itemSize p
    (fun A x => rfl) ?_ tris n0 rfl
  intro A x hA
  apply accumulateFaceNormal_untouched
  rw [hA]
  exact h

theorem flatFaceNormals_untouched (pos A : BufferAttribute) (p : ℕ)
    (h : ¬∃ v, v * A.itemSize ≤ p ∧ p ≤ v * A.itemSize + 2) :
    (flatFaceNormals pos A).array.getD p 0 = A.array.getD p 0 := by
  unfold flatFaceNormals
  apply foldl_untouched _ A.itemSize p
  · intro B t
    rfl
  · intro B t hB
    dsimp only
    apply setXYZ3_getD_untouched
    · intro hc
      rw [hB] at hc
      exact h ⟨3 * t, hc⟩
    · intro hc
      rw [hB] at hc
      exact h ⟨3 * t + 1, hc⟩
    · intro hc
      rw [hB] at hc
      exact h ⟨3 * t + 2, hc⟩
  · rfl

theorem normalizeNormals_untouched (A : BufferAttribute) (p : ℕ)
    (h : ¬∃ v, v * A.itemSize ≤ p ∧ p ≤ v * A.itemSize + 2) :
    (normalizeNormals A).array.getD p 0 = A.array.getD p 0 := by
  unfold normalizeNormals
  apply foldl_untouched _ A.itemSize p
  · intro B i
    rfl
  · intro B i hB
    dsimp only
    apply setXYZ_getD_untouched
    intro hc
    rw [hB] at hc
    exact h ⟨i, hc⟩
  · rfl

theorem zero_after_pipeline_acc (pos : BufferAttribute)
    (tris : List (ℕ × ℕ × ℕ)) (n0 : BufferAttribute)
    (hdvd : n0.itemSize ∣ n0.array.length) :
    zeroEntries (normalizeNormals (tris.foldl (accumulateFaceNormal pos) n0)) =
      zeroEntries n0 := by
  have hm1 := accFold_meta pos tris n0
  have hm2 := normalizeNormals_meta (tris.foldl (accumulateFaceNormal pos) n0)
  apply zeroEntries_congr
  · rw [hm2.1, hm1.1]
  · rw [hm2.2.1, hm1.2.1]
  · rw [hm2.2.2, hm1.2.2]
  · intro p hp hnz
    have htouch : ¬∃ v, v * n0.itemSize ≤ p ∧ p ≤ v * n0.itemSize + 2 := by
      rintro ⟨v, h1, h2⟩
      exact hnz (touch_to_zeroed n0.itemSize n0.array.length p v hdvd hp h1 h2)
    have htouchF : ¬∃ v,
        v * (tris.foldl (accumulateFaceNormal pos) n0).itemSize ≤ p ∧
        p ≤ v * (tris.foldl (accumulateFaceNormal pos) n0).itemSize + 2 := by
      rw [hm1.2.1]
      exact htouch
    rw [normalizeNormals_untouched _ p htouchF,
      accFold_untouched pos tris n0 p htouch]

theorem zero_after_pipeline_flat (pos n0 : BufferAttribute)
    (hdvd : n0.itemSize ∣ n0.array.length) :
    zeroEntries (normalizeNormals (flatFaceNormals pos n0)) =
      zeroEntries n0 := by
  have hm1 := flatFaceNormals_meta pos n0
  have hm2 := normalizeNormals_meta (flatFaceNormals pos n0)
  apply zeroEntries_congr
  · rw [hm2.1, hm1.1]
  · rw [hm2.2.1, hm1.2.1]
  · rw [hm2.2.2, hm1.2.2]
  · intro p hp hnz
    have htouch : ¬∃ v, v * n0.itemSize ≤ p ∧ p ≤ v * n0.itemSize + 2 := by
      rintro ⟨v, h1, h2⟩
      exact hnz (touch_to_zeroed n0.itemSize n0.array.length p v hdvd hp h1 h2)
    have htouchF : ¬∃ v, v * (flatFaceNormals pos n0).itemSize ≤ p ∧
        p ≤ v * (flatFaceNormals pos n0).itemSize + 2 := by
      rw [hm1.2.1]
      exact htouch
    rw [normalizeNormals_untouched _ p htouchF,
      flatFaceNormals_untouched pos n0 p htouch]

/-- Claim C6: on a geometry with a position attribute (and any existing
normal attribute satisfying the data model's invariant that its array
length is an exact multiple of its item width — the invariant §3 of the
spec states for every attribute buffer), calling `computeVertexNormals`
twice in succession yields an identical normal attribute: the second
call zeroes every normal entry before recomputing, so the values the
first call wrote never influence the result. -/
theorem claim6_computeVertexNormals_idempotent (g : BufferGeometry)
    (pos : BufferAttribute)
    (hpos : List.lookup "position" g.attributes = some pos)
    (hinv : ∀ n, List.lookup "normal" g.attributes = some n →
      n.itemSize ∣ n.array.length) :
    getAttribute (computeVertexNormals (computeVertexNormals g)) "normal" =
      getAttribute (computeVertexNormals g) "normal" := by
  have hI1 : (computeVertexNormals g).index = g.index := by
    simp [computeVertexNormals, hpos]
  cases hnor : List.lookup "normal" g.attributes with
  | none =>
      cases hidx : g.index with
      | some idx =>
          have hA1 : (computeVertexNormals g).attributes =
              attrSet g.attributes "normal"
                (normalizeNormals ((indexTriples idx).foldl
                  (accumulateFaceNormal pos)
                  ⟨List.replicate (vcount pos * 3) 0, 3, false⟩)) := by
            simp [computeVertexNormals, hpos, hnor, hidx]
          have hzero : zeroEntries (normalizeNormals ((indexTriples idx).foldl
              (accumulateFaceNormal pos)
              ⟨List.replicate (vcount pos * 3) 0, 3, false⟩)) =
              (⟨List.replicate (vcount pos * 3) 0, 3, false⟩ :
                BufferAttribute) := by
            rw [zero_after_pipeline_acc pos (indexTriples idx) _
              (by simp)]
            exact zeroEntries_replicate _ 3 false
          have key : ∀ G1 : BufferGeometry,
              G1.attributes = (computeVertexNormals g).attributes →
              G1.index = g.index →
              getAttribute (computeVertexNormals G1) "normal" =
                getAttribute G1 "normal" := by
            intro G1 h1 h2
            rw [hA1] at h1
            have hpos2 : List.lookup "position" G1.attributes = some pos := by
              rw [h1, lookup_attrSet_ne _ _ _ _ (by decide)]
              exact hpos
            have hnor2 : List.lookup "normal" G1.attributes =
                some (normalizeNormals ((indexTriples idx).foldl
                  (accumulateFaceNormal pos)
                  ⟨List.replicate (vcount pos * 3) 0, 3, false⟩)) := by
              rw [h1, lookup_attrSet_self]
            unfold getAttribute
            simp only [computeVertexNormals, hpos2, hnor2, h2, hidx, hzero]
            rw [lookup_attrSet_self]
          exact key (computeVertexNormals g) rfl hI1
      | none =>
          have hA1 : (computeVertexNormals g).attributes =
              attrSet g.attributes "normal"
                (normalizeNormals (flatFaceNormals pos
                  ⟨List.replicate (vcount pos * 3) 0, 3, false⟩)) := by
            simp [computeVertexNormals, hpos, hnor, hidx]
          have hzero : zeroEntries (normalizeNormals (flatFaceNormals pos
              ⟨List.replicate (vcount pos * 3) 0, 3, false⟩)) =
              (⟨List.replicate (vcount pos * 3) 0, 3, false⟩ :
                BufferAttribute) := by
            rw [zero_after_pipeline_flat pos _
              (by simp)]
            exact zeroEntries_replicate _ 3 false
          have key : ∀ G1 : BufferGeometry,
              G1.attributes = (computeVertexNormals g).attributes →
              G1.index = g.index →
              getAttribute (computeVertexNormals G1) "normal" =
                getAttribute G1 "normal" := by
            intro G1 h1 h2
            rw [hA1] at h1
            have hpos2 : List.lookup "position" G1.attributes = some pos := by
              rw [h1, lookup_attrSet_ne _ _ _ _ (by decide)]
              exact hpos
            have hnor2 : List.lookup "normal" G1.attributes =
                some (normalizeNormals (flatFaceNormals pos
                  ⟨List.replicate (vcount pos * 3) 0, 3, false⟩)) := by
              rw [h1, lookup_attrSet_self]
            unfold getAttribute
            simp only [computeVertexNormals, hpos2, hnor2, h2, hidx, hzero]
            rw [lookup_attrSet_self]
          exact key (computeVertexNormals g) rfl hI1
  | some n =>
      have hdvd : (zeroEntries n).itemSize ∣ (zeroEntries n).array.length := by
        rw [(zeroEntries_meta n).1, (zeroEntries_meta n).2.1]
        exact hinv n hnor
      cases hidx : g.index with
      | some idx =>
          have hA1 : (computeVertexNormals g).attributes =
              attrSet g.attributes "normal"
                (normalizeNormals ((indexTriples idx).foldl
                  (accumulateFaceNormal pos) (zeroEntries n))) := by
            simp [computeVertexNormals, hpos, hnor, hidx]
          have hzero : zeroEntries (normalizeNormals ((indexTriples idx).foldl
              (accumulateFaceNormal pos) (zeroEntries n))) = zeroEntries n :=
            (zero_after_pipeline_acc pos (indexTriples idx)
              (zeroEntries n) hdvd).trans (zeroEntries_idem n)
          have key : ∀ G1 : BufferGeometry,
              G1.attributes = (computeVertexNormals g).attributes →
              G1.index = g.index →
              getAttribute (computeVertexNormals G1) "normal" =
                getAttribute G1 "normal" := by
            intro G1 h1 h2
            rw [hA1] at h1
            have hpos2 : List.lookup "position" G1.attributes = some pos := by
              rw [h1, lookup_attrSet_ne _ _ _ _ (by decide)]
              exact hpos
            have hnor2 : List.lookup "normal" G1.attributes =
                some (normalizeNormals ((indexTriples idx).foldl
                  (accumulateFaceNormal pos) (zeroEntries n))) := by
              rw [h1, lookup_attrSet_self]
            unfold getAttribute
            simp only [computeVertexNormals, hpos2, hnor2, h2, hidx, hzero]
            rw [lookup_attrSet_self]
          exact key (computeVertexNormals g) rfl hI1
      | none =>
          have hA1 : (computeVertexNormals g).attributes =
              attrSet g.attributes "normal"
                (normalizeNormals (flatFaceNormals pos (zeroEntries n))) := by
            simp [computeVertexNormals, hpos, hnor, hidx]
          have hzero : zeroEntries (normalizeNormals
              (flatFaceNormals pos (zeroEntries n))) = zeroEntries n :=
            (zero_after_pipeline_flat pos (zeroEntries n) hdvd).trans
              (zeroEntries_idem n)
          have key : ∀ G1 : BufferGeometry,
              G1.attributes = (computeVertexNormals g).attributes →
              G1.index = g.index →
              getAttribute (computeVertexNormals G1) "normal" =
                getAttribute G1 "normal" := by
            intro G1 h1 h2
            rw [hA1] at h1
            have hpos2 : List.lookup "position" G1.attributes = some pos := by
              rw [h1, lookup_attrSet_ne _ _ _ _ (by decide)]
              exact hpos
            have hnor2 : List.lookup "normal" G1.attributes =
                some (normalizeNormals (flatFaceNormals pos
                  (zeroEntries n))) := by
              rw [h1, lookup_attrSet_self]
            unfold getAttribute
            simp only [computeVertexNormals, hpos2, hnor2, h2, hidx, hzero]
            rw [lookup_attrSet_self]
          exact key (computeVertexNormals g) rfl hI1

/-- Witness for claim C6 on an indexed triangle with a pre-existing
well-formed normal attribute. -/
theorem claim6_witness :
    List.lookup "position" gTri.attributes =
      some ⟨[0, 0, 0, 0, 1, 0, 0, 0, 1], 3, false⟩ ∧
    getAttribute (computeVertexNormals (computeVertexNormals gTri)) "normal" =
      getAttribute (computeVertexNormals gTri) "normal" := by
  refine ⟨by decide, ?_⟩
  exact claim6_computeVertexNormals_idempotent gTri
    ⟨[0, 0, 0, 0, 1, 0, 0, 0, 1], 3, false⟩ (by decide)
    (fun n h => by
      simp [gTri, List.lookup] at h
      subst h
      decide)
